import Mathlib

/-!
Verification of the scenario calculation core of the repository
(openquake/commonlib/calc.py and its collaborators) against its
natural-language specification.

The Python code is shallowly embedded: dictionaries become association
lists compared extensionally, Python None becomes the `none` of an
`Option`, numeric values become `Int`, and fallible operations return
`Except PyErr`.  Collaborator functions that live outside the two source
files of the repository (hazardlib filters, the GmfComputer, the risk
model, make_epsilons, apply_reduce, the standard library PRNG) are
modelled from the specification; each such definition says so in its
doc comment.
-/

namespace OQ

/-- Errors that the embedded Python code can raise. -/
inductive PyErr where
  | typeError
  | notImplementedError
  | attributeError
  | configurationError
  deriving DecidableEq, Repr

/-- A Python value stored in a result dictionary: either None or a number.
Numbers are modelled exactly, by integers. -/
abbrev PyVal := Option Int

/-- A Python dictionary with keys in K and summable-or-None values,
modelled as an association list and always compared extensionally
(via `dictGet`), matching dictionary equality in Python. -/
abbrev Dict (K : Type) := List (K × PyVal)

/-- Lookup of a key in a dictionary; `none` means the key is absent. -/
def dictGet {K : Type} [DecidableEq K] : Dict K → K → Option PyVal
  | [], _ => none
  | (k, v) :: rest, k' => if k' = k then some v else dictGet rest k'

/-- Assignment `d[k] = v`: replace the binding if the key is present,
append it otherwise. -/
def dictSet {K : Type} [DecidableEq K] : Dict K → K → PyVal → Dict K
  | [], k, v => [(k, v)]
  | (k0, v0) :: rest, k, v =>
      if k = k0 then (k0, v) :: rest else (k0, v0) :: dictSet rest k v

/-- The expression `new.get(k, 0) + v` from add_dicts: a missing key
contributes 0; a stored None raises a TypeError when added to a number. -/
def getPlus {K : Type} [DecidableEq K] (d : Dict K) (k : K) (v : Int) :
    Except PyErr Int :=
  match dictGet d k with
  | none => .ok v
  | some (some a) => .ok (a + v)
  | some none => .error .typeError

/-- Embedding of add_dicts from openquake/commonlib/calc.py:
copy the accumulator, then for each (k, v) of the second dictionary with
v not None set new[k] = new.get(k, 0) + v. -/
def add_dicts {K : Type} [DecidableEq K] (acc : Dict K) : Dict K → Except PyErr (Dict K)
  | [] => .ok acc
  | (k, v) :: rest =>
      match v with
      | none => add_dicts acc rest
      | some v' =>
          match getPlus acc k v' with
          | .error e => .error e
          | .ok s => add_dicts (dictSet acc k (some s)) rest

/-- Extensional equality of dictionaries, the meaning of == on Python dicts. -/
def dictEq {K : Type} [DecidableEq K] (d₁ d₂ : Dict K) : Prop :=
  ∀ k, dictGet d₁ k = dictGet d₂ k

/-- A dictionary none of whose stored values is None. -/
def NoneFree {K : Type} [DecidableEq K] (d : Dict K) : Prop :=
  ∀ k, dictGet d k ≠ some none

/-- Numeric abstraction of a dictionary: present keys are mapped to their
value, a stored None is flattened to 0 (only used on NoneFree dictionaries,
where the flattening is vacuous). -/
def absDict {K : Type} [DecidableEq K] (d : Dict K) : K → Option Int :=
  fun k => (dictGet d k).map (fun ov => ov.getD 0)

/-- Numeric abstraction that drops None values: the contribution a
dictionary makes as the second argument of add_dicts. -/
def absDictF {K : Type} [DecidableEq K] (d : Dict K) : K → Option Int :=
  fun k => (dictGet d k).bind id

/-- Pointwise merge of two partial numeric maps: a key missing on one side
keeps the other side, a key present on both is summed. -/
def addOpt {K : Type} (f g : K → Option Int) : K → Option Int :=
  fun k =>
    match f k, g k with
    | none, none => none
    | some a, none => some a
    | none, some b => some b
    | some a, some b => some (a + b)

theorem addOpt_comm {K : Type} (f g : K → Option Int) : addOpt f g = addOpt g f := by
  funext k
  unfold addOpt
  cases f k <;> cases g k <;> simp [Int.add_comm]

theorem addOpt_assoc {K : Type} (f g h : K → Option Int) :
    addOpt (addOpt f g) h = addOpt f (addOpt g h) := by
  funext k
  unfold addOpt
  cases f k <;> cases g k <;> cases h k <;> simp [Int.add_assoc]

theorem addOpt_none_left {K : Type} (f : K → Option Int) :
    addOpt (fun _ => none) f = f := by
  funext k
  unfold addOpt
  cases f k <;> simp

theorem addOpt_none_right {K : Type} (f : K → Option Int) :
    addOpt f (fun _ => none) = f := by
  funext k
  unfold addOpt
  cases f k <;> simp

theorem dictGet_dictSet {K : Type} [DecidableEq K] (d : Dict K) (k k' : K) (v : PyVal) :
    dictGet (dictSet d k v) k' = if k' = k then some v else dictGet d k' := by
  induction d with
  | nil => simp [dictSet, dictGet]
  | cons kv rest ih =>
      obtain ⟨k0, v0⟩ := kv
      by_cases hk : k = k0
      · subst hk
        by_cases hk' : k' = k <;> simp [dictSet, dictGet, hk']
      · by_cases hk' : k' = k0
        · subst hk'
          simp [dictSet, dictGet, hk, Ne.symm hk]
        · simp [dictSet, dictGet, hk, hk', ih]

theorem noneFree_nil {K : Type} [DecidableEq K] : NoneFree ([] : Dict K) := by
  intro k
  simp [dictGet]

theorem noneFree_dictSet {K : Type} [DecidableEq K] {d : Dict K} (hd : NoneFree d)
    (k : K) (v : Int) : NoneFree (dictSet d k (some v)) := by
  intro k'
  rw [dictGet_dictSet]
  by_cases h : k' = k
  · simp [h]
  · simp [h]
    exact hd k'

theorem absDict_eq_absDictF {K : Type} [DecidableEq K] {d : Dict K} (hd : NoneFree d) :
    absDict d = absDictF d := by
  funext k
  unfold absDict absDictF
  cases hget : dictGet d k with
  | none => simp
  | some ov =>
      cases ov with
      | none => exact absurd hget (hd k)
      | some a => simp

theorem dictEq_of_absDict_eq {K : Type} [DecidableEq K] {d₁ d₂ : Dict K}
    (h₁ : NoneFree d₁) (h₂ : NoneFree d₂) (h : absDict d₁ = absDict d₂) :
    dictEq d₁ d₂ := by
  intro k
  have hk := congrFun h k
  unfold absDict at hk
  cases hg₁ : dictGet d₁ k with
  | none =>
      cases hg₂ : dictGet d₂ k with
      | none => rfl
      | some ov => rw [hg₁, hg₂] at hk; simp at hk
  | some ov₁ =>
      cases ov₁ with
      | none => exact absurd hg₁ (h₁ k)
      | some a =>
          cases hg₂ : dictGet d₂ k with
          | none => rw [hg₁, hg₂] at hk; simp at hk
          | some ov₂ =>
              cases ov₂ with
              | none => exact absurd hg₂ (h₂ k)
              | some b =>
                  rw [hg₁, hg₂] at hk
                  simp at hk
                  rw [hk]

theorem mem_keys_dictSet {K : Type} [DecidableEq K] (d : Dict K) (k k' : K) (v : PyVal) :
    k' ∈ (dictSet d k v).map Prod.fst ↔ k' ∈ d.map Prod.fst ∨ k' = k := by
  induction d with
  | nil => simp [dictSet]
  | cons kv rest ih =>
      obtain ⟨k0, v0⟩ := kv
      by_cases h : k = k0
      · subst h
        simp [dictSet]
        tauto
      · simp [dictSet, h, ih]
        tauto

theorem nodupKeys_dictSet {K : Type} [DecidableEq K] {d : Dict K}
    (h : (d.map Prod.fst).Nodup) (k : K) (v : PyVal) :
    ((dictSet d k v).map Prod.fst).Nodup := by
  induction d with
  | nil => simp [dictSet]
  | cons kv rest ih =>
      obtain ⟨k0, v0⟩ := kv
      simp only [List.map_cons, List.nodup_cons] at h
      by_cases hk : k = k0
      · subst hk
        have hset : dictSet ((k, v0) :: rest) k v = (k, v) :: rest := by
          simp [dictSet]
        rw [hset]
        simpa using h
      · simp only [dictSet, if_neg hk, List.map_cons, List.nodup_cons]
        refine ⟨?_, ih h.2⟩
        rw [mem_keys_dictSet]
        push_neg
        exact ⟨h.1, fun heq => hk heq.symm⟩

theorem dictGet_eq_none_of_not_mem {K : Type} [DecidableEq K] {d : Dict K} {k : K}
    (h : k ∉ d.map Prod.fst) : dictGet d k = none := by
  induction d with
  | nil => rfl
  | cons kv rest ih =>
      simp only [List.map_cons, List.mem_cons] at h
      push_neg at h
      simp [dictGet, h.1, ih h.2]

/-- Central characterization of add_dicts: when the accumulator holds no
None value and the second dictionary has no duplicate key, the call
succeeds, preserves None-freeness, and acts as the pointwise merge of the
numeric abstractions (None values of the second dictionary dropped). -/
theorem add_dicts_ok {K : Type} [DecidableEq K] (dic : Dict K) :
    ∀ acc : Dict K, NoneFree acc → (acc.map Prod.fst).Nodup → (dic.map Prod.fst).Nodup →
    ∃ r, add_dicts acc dic = .ok r ∧ NoneFree r ∧ (r.map Prod.fst).Nodup ∧
      absDict r = addOpt (absDict acc) (absDictF dic) := by
  induction dic with
  | nil =>
      intro acc hacc haccnd _
      refine ⟨acc, rfl, hacc, haccnd, ?_⟩
      have : absDictF ([] : Dict K) = fun _ => none := by
        funext k
        simp [absDictF, dictGet]
      rw [this, addOpt_none_right]
  | cons kv rest ih =>
      intro acc hacc haccnd hnd
      obtain ⟨k, v⟩ := kv
      simp only [List.map_cons, List.nodup_cons] at hnd
      obtain ⟨hknotin, hndrest⟩ := hnd
      have hrest_none : dictGet rest k = none := dictGet_eq_none_of_not_mem hknotin
      cases v with
      | none =>
          obtain ⟨r, hr, hrnf, hrnd, habs⟩ := ih acc hacc haccnd hndrest
          refine ⟨r, hr, hrnf, hrnd, ?_⟩
          rw [habs]
          have hsame : absDictF ((k, none) :: rest) = absDictF rest := by
            funext k'
            by_cases hk' : k' = k
            · subst hk'
              simp [absDictF, dictGet, hrest_none]
            · simp [absDictF, dictGet, hk']
          rw [hsame]
      | some v' =>
          have hget : getPlus acc k v' = .ok ((absDict acc k).getD 0 + v') := by
            unfold getPlus
            cases hg : dictGet acc k with
            | none => simp [absDict, hg]
            | some ov =>
                cases ov with
                | none => exact absurd hg (hacc k)
                | some a => simp [absDict, hg]
          have hacc' : NoneFree (dictSet acc k (some ((absDict acc k).getD 0 + v'))) :=
            noneFree_dictSet hacc k _
          have haccnd' : ((dictSet acc k (some ((absDict acc k).getD 0 + v'))).map
              Prod.fst).Nodup := nodupKeys_dictSet haccnd k _
          obtain ⟨r, hr, hrnf, hrnd, habs⟩ := ih _ hacc' haccnd' hndrest
          refine ⟨r, ?_, hrnf, hrnd, ?_⟩
          · simp only [add_dicts, hget]
            exact hr
          · rw [habs]
            funext k'
            by_cases hk' : k' = k
            · subst hk'
              have h₁ : absDict (dictSet acc k' (some ((absDict acc k').getD 0 + v'))) k'
                  = some ((absDict acc k').getD 0 + v') := by
                simp [absDict, dictGet_dictSet]
              have h₂ : absDictF rest k' = none := by
                simp [absDictF, hrest_none]
              have h₃ : absDictF ((k', some v') :: rest) k' = some v' := by
                simp [absDictF, dictGet]
              simp only [addOpt, h₁, h₂, h₃]
              cases hg : absDict acc k' with
              | none => simp
              | some a => simp
            · have h₁ : absDict (dictSet acc k (some ((absDict acc k).getD 0 + v'))) k'
                  = absDict acc k' := by
                simp [absDict, dictGet_dictSet, hk']
              have h₃ : absDictF ((k, some v') :: rest) k' = absDictF rest k' := by
                simp [absDictF, dictGet, hk']
              simp only [addOpt, h₁, h₃]

/-- The partial numeric map holding exactly one key. -/
def single {K : Type} [DecidableEq K] (k : K) (v : Int) : K → Option Int :=
  fun k' => if k' = k then some v else none

/-- Sum of a list of partial numeric maps under the pointwise merge. -/
def sumF {K : Type} : List (K → Option Int) → K → Option Int
  | [] => fun _ => none
  | f :: rest => addOpt f (sumF rest)

/-- Sum of a list of keyed numeric contributions. -/
def sumPairs {K : Type} [DecidableEq K] (ps : List (K × Int)) : K → Option Int :=
  sumF (ps.map (fun p => single p.1 p.2))

theorem sumF_append {K : Type} (xs ys : List (K → Option Int)) :
    sumF (xs ++ ys) = addOpt (sumF xs) (sumF ys) := by
  induction xs with
  | nil => simp [sumF, addOpt_none_left]
  | cons x rest ih => simp [sumF, ih, addOpt_assoc]

theorem sumF_perm {K : Type} {fs gs : List (K → Option Int)} (h : fs.Perm gs) :
    sumF fs = sumF gs := by
  induction h with
  | nil => rfl
  | cons x _ ih => simp [sumF, ih]
  | swap x y l =>
      simp only [sumF]
      rw [← addOpt_assoc, ← addOpt_assoc, addOpt_comm y x]
  | trans _ _ ih₁ ih₂ => rw [ih₁, ih₂]

theorem sumPairs_append {K : Type} [DecidableEq K] (xs ys : List (K × Int)) :
    sumPairs (xs ++ ys) = addOpt (sumPairs xs) (sumPairs ys) := by
  unfold sumPairs
  rw [List.map_append, sumF_append]

theorem sumPairs_perm {K : Type} [DecidableEq K] {xs ys : List (K × Int)}
    (h : xs.Perm ys) : sumPairs xs = sumPairs ys :=
  sumF_perm (h.map _)

theorem sumPairs_cons {K : Type} [DecidableEq K] (p : K × Int) (ps : List (K × Int)) :
    sumPairs (p :: ps) = addOpt (single p.1 p.2) (sumPairs ps) := rfl

/-- Folding a family of pair lists: summing their sums is summing the
concatenation. -/
theorem sumF_map_sumPairs {K : Type} [DecidableEq K] (ls : List (List (K × Int))) :
    sumF (ls.map sumPairs) = sumPairs ls.flatten := by
  induction ls with
  | nil => rfl
  | cons l rest ih => simp [sumF, sumPairs_append, ih]

theorem sumPairs_eq_none_of_not_mem {K : Type} [DecidableEq K] {ps : List (K × Int)}
    {k : K} (h : k ∉ ps.map Prod.fst) : sumPairs ps k = none := by
  induction ps with
  | nil => rfl
  | cons p rest ih =>
      simp only [List.map_cons, List.mem_cons] at h
      push_neg at h
      simp only [sumPairs, List.map_cons, sumF, addOpt] at *
      rw [show single p.1 p.2 k = none by simp [single, h.1]]
      rw [ih h.2]

/-- Closed evaluation of sumPairs: the key is present exactly when some
pair carries it, and then holds the sum of the carried values. -/
theorem sumPairs_eval {K : Type} [DecidableEq K] (ps : List (K × Int)) (k : K) :
    sumPairs ps k =
      if (ps.filter (fun p => decide (p.1 = k))) = [] then none
      else some (((ps.filter (fun p => decide (p.1 = k))).map Prod.snd).sum) := by
  induction ps with
  | nil => rfl
  | cons p rest ih =>
      rw [sumPairs_cons]
      by_cases hk : p.1 = k
      · have hfil : ((p :: rest).filter (fun q => decide (q.1 = k))) =
            p :: rest.filter (fun q => decide (q.1 = k)) := by
          simp [List.filter_cons, hk]
        rw [hfil]
        have hsing : single p.1 p.2 k = some p.2 := by simp [single, hk]
        unfold addOpt
        rw [hsing, ih]
        by_cases hrest : rest.filter (fun q => decide (q.1 = k)) = []
        · simp [hrest]
        · simp [hrest]
      · have hfil : ((p :: rest).filter (fun q => decide (q.1 = k))) =
            rest.filter (fun q => decide (q.1 = k)) := by
          simp [List.filter_cons, hk]
        rw [hfil]
        have hsing : single p.1 p.2 k = none := by
          unfold single
          rw [if_neg (fun h : k = p.1 => hk h.symm)]
        unfold addOpt
        rw [hsing, ih]
        by_cases hrest : rest.filter (fun q => decide (q.1 = k)) = [] <;> simp [hrest]

theorem sumPairs_eval_nil {K : Type} [DecidableEq K] {ps : List (K × Int)} {k : K}
    (h : ps.filter (fun p => decide (p.1 = k)) = []) : sumPairs ps k = none := by
  rw [sumPairs_eval]
  simp [h]

theorem sumPairs_eval_ne {K : Type} [DecidableEq K] {ps : List (K × Int)} {k : K}
    (h : ¬ ps.filter (fun p => decide (p.1 = k)) = []) :
    sumPairs ps k = some (((ps.filter (fun p => decide (p.1 = k))).map Prod.snd).sum) := by
  rw [sumPairs_eval]
  simp [h]

/-- On a dictionary without duplicate keys, the None-dropping abstraction
is the sum of its non-None entries. -/
theorem absDictF_eq_sumPairs {K : Type} [DecidableEq K] (dic : Dict K)
    (hnd : (dic.map Prod.fst).Nodup) :
    absDictF dic = sumPairs (dic.filterMap (fun kv => kv.2.map (fun v => (kv.1, v)))) := by
  induction dic with
  | nil =>
      funext k
      rfl
  | cons kv rest ih =>
      obtain ⟨k, v⟩ := kv
      simp only [List.map_cons, List.nodup_cons] at hnd
      obtain ⟨hknotin, hndrest⟩ := hnd
      have hrest_none : dictGet rest k = none := dictGet_eq_none_of_not_mem hknotin
      have hsub : k ∉ (rest.filterMap
          (fun kv => kv.2.map (fun v => (kv.1, v)))).map Prod.fst := by
        intro hmem
        apply hknotin
        simp only [List.mem_map] at hmem ⊢
        obtain ⟨q, hq, hfst⟩ := hmem
        simp only [List.mem_filterMap] at hq
        obtain ⟨kv', hkv', hmap⟩ := hq
        cases hv' : kv'.2 with
        | none => rw [hv'] at hmap; simp at hmap
        | some v' =>
            rw [hv'] at hmap
            simp at hmap
            exact ⟨kv', hkv', by rw [← hmap] at hfst; exact hfst⟩
      cases v with
      | none =>
          have hfil : ((k, (none : PyVal)) :: rest).filterMap
              (fun kv => kv.2.map (fun v => (kv.1, v))) =
              rest.filterMap (fun kv => kv.2.map (fun v => (kv.1, v))) := by
            simp [List.filterMap]
          rw [hfil, ← ih hndrest]
          funext k'
          by_cases hk' : k' = k
          · subst hk'
            simp [absDictF, dictGet, hrest_none]
          · simp [absDictF, dictGet, hk']
      | some v' =>
          have hfil : ((k, (some v' : PyVal)) :: rest).filterMap
              (fun kv => kv.2.map (fun v => (kv.1, v))) =
              (k, v') :: rest.filterMap (fun kv => kv.2.map (fun v => (kv.1, v))) := by
            simp [List.filterMap]
          rw [hfil]
          funext k'
          simp only [sumPairs, List.map_cons, sumF]
          by_cases hk' : k' = k
          · subst hk'
            have h₁ : absDictF ((k', (some v' : PyVal)) :: rest) k' = some v' := by
              simp [absDictF, dictGet]
            have h₂ : sumPairs (rest.filterMap
                (fun kv => kv.2.map (fun v => (kv.1, v)))) k' = none :=
              sumPairs_eq_none_of_not_mem hsub
            have h₃ : single k' v' k' = some v' := by simp [single]
            show absDictF ((k', (some v' : PyVal)) :: rest) k' =
              addOpt (single k' v') (sumPairs (rest.filterMap
                (fun kv => kv.2.map (fun v => (kv.1, v))))) k'
            unfold addOpt
            rw [h₁, h₂, h₃]
          · have h₁ : absDictF ((k, (some v' : PyVal)) :: rest) k' = absDictF rest k' := by
              simp [absDictF, dictGet, hk']
            have h₃ : single k v' k' = none := by simp [single, hk']
            show absDictF ((k, (some v' : PyVal)) :: rest) k' =
              addOpt (single k v') (sumPairs (rest.filterMap
                (fun kv => kv.2.map (fun v => (kv.1, v))))) k'
            unfold addOpt
            rw [h₁, h₃, ih hndrest]
            cases sumPairs (rest.filterMap (fun kv => kv.2.map (fun v => (kv.1, v)))) k' <;>
              rfl

theorem absDict_nil {K : Type} [DecidableEq K] :
    absDict ([] : Dict K) = fun _ => none := by
  funext k
  rfl

theorem absDictF_singleton {K : Type} [DecidableEq K] (k : K) (v : Int) :
    absDictF [(k, (some v : PyVal))] = single k v := by
  funext k'
  by_cases h : k' = k <;> simp [absDictF, dictGet, single, h]

/-- Asset as consumed by the scenario calculators: a building category and a
count of buildings. -/
structure EAsset where
  taxonomy : String
  number : Int
  deriving DecidableEq, Repr

/-- RiskInput record built by run_scenario.  The class itself lives in
openquake.risklib.workflows (not in src); modelled from the spec: imt, site
identity, ground-motion vector, asset list, and a load-balancing weight. -/
structure RiskInput where
  imt : String
  site_id : Nat
  gmvs : List Int
  assets : List EAsset
  deriving DecidableEq, Repr

/-- Weight of a risk input; modelled from the spec: a load-balancing
measure, by default the asset count, used only for partition sizing. -/
def RiskInput.weight (ri : RiskInput) : Nat := ri.assets.length

/-- The output tuple of the risk model in scenario_risk mode, as
destructured by calc_scenario.  Aggregate and insured losses may be None. -/
structure ScenOut where
  assets : List EAsset
  loss_ratio_matrix : List (List Int)
  aggregate_losses : PyVal
  insured_loss_matrix : List (List Int)
  insured_losses : PyVal
  deriving DecidableEq, Repr

/-- The two aggregation kinds used as first key component by calc_scenario
(the strings agg and ins in the source). -/
inductive AggKind where
  | agg
  | ins
  deriving DecidableEq, Repr

/-- Modelled from the spec: riskmodel.gen_outputs (openquake.commonlib.riskmodels,
not in src) produces a lazy sequence of (loss_type, outputs) pairs from the
risk inputs; modelled as the per-input outputs concatenated in input order. -/
def gen_outputs {O : Type} (riskmodel : RiskInput → List (String × O))
    (riskinputs : List RiskInput) : List (String × O) :=
  riskinputs.flatMap riskmodel

/-- Inner loop of calc_damage: for asset, fraction in zip(assets, fractions),
result = add_dicts(result, {asset.taxonomy: fraction * asset.number}). -/
def damage_inner (result : Dict String) :
    List (EAsset × Int) → Except PyErr (Dict String)
  | [] => .ok result
  | (asset, fraction) :: rest =>
      match add_dicts result [(asset.taxonomy, some (fraction * asset.number))] with
      | .error e => .error e
      | .ok r => damage_inner r rest

/-- Outer loop of calc_damage over the (loss_type, (assets, fractions))
pairs yielded by the risk model. -/
def damage_outer (result : Dict String) :
    List (String × (List EAsset × List Int)) → Except PyErr (Dict String)
  | [] => .ok result
  | (_loss_type, (assets, fractions)) :: rest =>
      match damage_inner result (assets.zip fractions) with
      | .error e => .error e
      | .ok r => damage_outer r rest

/-- Embedding of calc_damage from openquake/commonlib/calc.py. -/
def calc_damage (riskinputs : List RiskInput)
    (riskmodel : RiskInput → List (String × (List EAsset × List Int))) :
    Except PyErr (Dict String) :=
  damage_outer [] (gen_outputs riskmodel riskinputs)

/-- Loop of calc_scenario over the (loss_type, outs) pairs yielded by the
risk model: result = add_dicts(result, {(agg, loss_type): aggregate_losses,
(ins, loss_type): insured_losses}). -/
def scen_outer (result : Dict (AggKind × String)) :
    List (String × ScenOut) → Except PyErr (Dict (AggKind × String))
  | [] => .ok result
  | (loss_type, outs) :: rest =>
      match add_dicts result [((AggKind.agg, loss_type), outs.aggregate_losses),
                              ((AggKind.ins, loss_type), outs.insured_losses)] with
      | .error e => .error e
      | .ok r => scen_outer r rest

/-- Embedding of calc_scenario from openquake/commonlib/calc.py. -/
def calc_scenario (riskinputs : List RiskInput)
    (riskmodel : RiskInput → List (String × ScenOut)) :
    Except PyErr (Dict (AggKind × String)) :=
  scen_outer [] (gen_outputs riskmodel riskinputs)

/-- Modelled from the spec: apply_reduce (openquake.commonlib.parallel, not
in src).  The work list is split into partitions, each partition is handed
to the calculation function, and the partial dictionaries are merged with
the supplied merge function (add_dicts here, always) into the accumulator.
The specification leaves the partitioning strategy open, so the partition
list is a parameter; the partition-invariance theorem quantifies over it. -/
def apply_reduce {A K : Type} [DecidableEq K]
    (calcf : List A → Except PyErr (Dict K)) :
    List (List A) → Dict K → Except PyErr (Dict K)
  | [], acc => .ok acc
  | part :: rest, acc =>
      match calcf part with
      | .error e => .error e
      | .ok res =>
          match add_dicts acc res with
          | .error e => .error e
          | .ok acc' => apply_reduce calcf rest acc'

/-- The numeric contributions made by a list of damage outputs: one
(taxonomy, fraction times count) pair per zipped asset. -/
def dmgPairs (outs : List (String × (List EAsset × List Int))) :
    List (String × Int) :=
  outs.flatMap (fun lo =>
    (lo.2.1.zip lo.2.2).map (fun pa => (pa.1.taxonomy, pa.2 * pa.1.number)))

/-- The numeric contributions made by one scenario output: its non-None
aggregate and insured losses, keyed by kind and loss type. -/
def scenPairsOne (lt : String) (o : ScenOut) : List ((AggKind × String) × Int) :=
  (match o.aggregate_losses with
   | none => []
   | some v => [((AggKind.agg, lt), v)]) ++
  (match o.insured_losses with
   | none => []
   | some v => [((AggKind.ins, lt), v)])

/-- The numeric contributions made by a list of scenario outputs. -/
def scenPairs (outs : List (String × ScenOut)) : List ((AggKind × String) × Int) :=
  outs.flatMap (fun lo => scenPairsOne lo.1 lo.2)

theorem damage_inner_ok (pairs : List (EAsset × Int)) :
    ∀ result : Dict String, NoneFree result → (result.map Prod.fst).Nodup →
    ∃ r, damage_inner result pairs = .ok r ∧ NoneFree r ∧ (r.map Prod.fst).Nodup ∧
      absDict r = addOpt (absDict result)
        (sumPairs (pairs.map (fun pa => (pa.1.taxonomy, pa.2 * pa.1.number)))) := by
  induction pairs with
  | nil =>
      intro result hnf hnd
      refine ⟨result, rfl, hnf, hnd, ?_⟩
      rw [show sumPairs (List.map _ []) = (fun _ => none) from rfl, addOpt_none_right]
  | cons pa rest ih =>
      intro result hnf hnd
      obtain ⟨asset, fraction⟩ := pa
      obtain ⟨r₁, hadd, h₁nf, h₁nd, h₁abs⟩ :=
        add_dicts_ok [(asset.taxonomy, some (fraction * asset.number))] result hnf hnd
          (by simp)
      obtain ⟨r, hrec, hrnf, hrnd, habs⟩ := ih r₁ h₁nf h₁nd
      refine ⟨r, ?_, hrnf, hrnd, ?_⟩
      · simp only [damage_inner, hadd]
        exact hrec
      · rw [habs, h₁abs, absDictF_singleton, addOpt_assoc]
        simp only [List.map_cons, sumPairs_cons]

theorem damage_outer_ok (outs : List (String × (List EAsset × List Int))) :
    ∀ result : Dict String, NoneFree result → (result.map Prod.fst).Nodup →
    ∃ r, damage_outer result outs = .ok r ∧ NoneFree r ∧ (r.map Prod.fst).Nodup ∧
      absDict r = addOpt (absDict result) (sumPairs (dmgPairs outs)) := by
  induction outs with
  | nil =>
      intro result hnf hnd
      refine ⟨result, rfl, hnf, hnd, ?_⟩
      rw [show sumPairs (dmgPairs []) = (fun _ => none) from rfl, addOpt_none_right]
  | cons lo rest ih =>
      intro result hnf hnd
      obtain ⟨lt, assets, fractions⟩ := lo
      obtain ⟨r₁, hinner, h₁nf, h₁nd, h₁abs⟩ :=
        damage_inner_ok (assets.zip fractions) result hnf hnd
      obtain ⟨r, hrec, hrnf, hrnd, habs⟩ := ih r₁ h₁nf h₁nd
      refine ⟨r, ?_, hrnf, hrnd, ?_⟩
      · simp only [damage_outer, hinner]
        exact hrec
      · rw [habs, h₁abs, addOpt_assoc]
        have hsplit : dmgPairs ((lt, (assets, fractions)) :: rest) =
            ((assets.zip fractions).map
              (fun pa => (pa.1.taxonomy, pa.2 * pa.1.number))) ++ dmgPairs rest := by
          simp [dmgPairs]
        rw [hsplit, sumPairs_append]

theorem calc_damage_ok (riskinputs : List RiskInput)
    (riskmodel : RiskInput → List (String × (List EAsset × List Int))) :
    ∃ r, calc_damage riskinputs riskmodel = .ok r ∧ NoneFree r ∧
      (r.map Prod.fst).Nodup ∧
      absDict r = sumPairs (dmgPairs (gen_outputs riskmodel riskinputs)) := by
  obtain ⟨r, hr, hnf, hnd, habs⟩ :=
    damage_outer_ok (gen_outputs riskmodel riskinputs) [] noneFree_nil (by simp)
  exact ⟨r, hr, hnf, hnd, by rw [habs, absDict_nil, addOpt_none_left]⟩

theorem absDictF_scen_pair (lt : String) (o : ScenOut) :
    absDictF [((AggKind.agg, lt), o.aggregate_losses),
              ((AggKind.ins, lt), o.insured_losses)] = sumPairs (scenPairsOne lt o) := by
  rw [absDictF_eq_sumPairs _ (by simp)]
  obtain ⟨oas, olrm, oagg, oilm, oins⟩ := o
  cases oagg <;> cases oins <;> simp [scenPairsOne, List.filterMap]

theorem scen_outer_ok (outs : List (String × ScenOut)) :
    ∀ result : Dict (AggKind × String), NoneFree result → (result.map Prod.fst).Nodup →
    ∃ r, scen_outer result outs = .ok r ∧ NoneFree r ∧ (r.map Prod.fst).Nodup ∧
      absDict r = addOpt (absDict result) (sumPairs (scenPairs outs)) := by
  induction outs with
  | nil =>
      intro result hnf hnd
      refine ⟨result, rfl, hnf, hnd, ?_⟩
      rw [show sumPairs (scenPairs []) = (fun _ => none) from rfl, addOpt_none_right]
  | cons lo rest ih =>
      intro result hnf hnd
      obtain ⟨lt, o⟩ := lo
      obtain ⟨r₁, hadd, h₁nf, h₁nd, h₁abs⟩ :=
        add_dicts_ok [((AggKind.agg, lt), o.aggregate_losses),
                      ((AggKind.ins, lt), o.insured_losses)] result hnf hnd (by simp)
      obtain ⟨r, hrec, hrnf, hrnd, habs⟩ := ih r₁ h₁nf h₁nd
      refine ⟨r, ?_, hrnf, hrnd, ?_⟩
      · simp only [scen_outer, hadd]
        exact hrec
      · rw [habs, h₁abs, absDictF_scen_pair, addOpt_assoc]
        have hsplit : scenPairs ((lt, o) :: rest) =
            scenPairsOne lt o ++ scenPairs rest := by
          simp [scenPairs]
        rw [hsplit, sumPairs_append]

theorem calc_scenario_ok (riskinputs : List RiskInput)
    (riskmodel : RiskInput → List (String × ScenOut)) :
    ∃ r, calc_scenario riskinputs riskmodel = .ok r ∧ NoneFree r ∧
      (r.map Prod.fst).Nodup ∧
      absDict r = sumPairs (scenPairs (gen_outputs riskmodel riskinputs)) := by
  obtain ⟨r, hr, hnf, hnd, habs⟩ :=
    scen_outer_ok (gen_outputs riskmodel riskinputs) [] noneFree_nil (by simp)
  exact ⟨r, hr, hnf, hnd, by rw [habs, absDict_nil, addOpt_none_left]⟩

/-- Running the reduction over any partition list: if every partition is
calculated successfully into a well-formed dictionary abstracting to g,
the reduction succeeds and abstracts to the accumulated sum. -/
theorem apply_reduce_ok {A K : Type} [DecidableEq K]
    (calcf : List A → Except PyErr (Dict K)) (g : List A → (K → Option Int))
    (parts : List (List A)) :
    ∀ acc : Dict K, NoneFree acc → (acc.map Prod.fst).Nodup →
    (∀ part ∈ parts, ∃ r, calcf part = .ok r ∧ NoneFree r ∧
      (r.map Prod.fst).Nodup ∧ absDict r = g part) →
    ∃ R, apply_reduce calcf parts acc = .ok R ∧ NoneFree R ∧
      (R.map Prod.fst).Nodup ∧
      absDict R = addOpt (absDict acc) (sumF (parts.map g)) := by
  induction parts with
  | nil =>
      intro acc hnf hnd _
      refine ⟨acc, rfl, hnf, hnd, ?_⟩
      rw [show sumF (List.map g []) = (fun _ => none) from rfl, addOpt_none_right]
  | cons part rest ih =>
      intro acc hnf hnd hall
      obtain ⟨res, hres, hresnf, hresnd, hresabs⟩ := hall part (by simp)
      obtain ⟨acc', hadd, h₁nf, h₁nd, h₁abs⟩ := add_dicts_ok res acc hnf hnd hresnd
      obtain ⟨R, hrec, hRnf, hRnd, hRabs⟩ := ih acc' h₁nf h₁nd
        (fun p hp => hall p (by simp [hp]))
      refine ⟨R, ?_, hRnf, hRnd, ?_⟩
      · simp only [apply_reduce, hres, hadd]
        exact hrec
      · rw [hRabs, h₁abs, ← absDict_eq_absDictF hresnf, hresabs, addOpt_assoc]
        simp only [List.map_cons, sumF]

theorem add_dicts_comm_of_noneFree {K : Type} [DecidableEq K] {A B : Dict K}
    (hA : NoneFree A) (hB : NoneFree B)
    (hAnd : (A.map Prod.fst).Nodup) (hBnd : (B.map Prod.fst).Nodup) :
    ∃ AB BA, add_dicts A B = .ok AB ∧ add_dicts B A = .ok BA ∧ dictEq AB BA := by
  obtain ⟨AB, hAB, hABnf, _, hABabs⟩ := add_dicts_ok B A hA hAnd hBnd
  obtain ⟨BA, hBA, hBAnf, _, hBAabs⟩ := add_dicts_ok A B hB hBnd hAnd
  refine ⟨AB, BA, hAB, hBA, dictEq_of_absDict_eq hABnf hBAnf ?_⟩
  rw [hABabs, hBAabs, ← absDict_eq_absDictF hA, ← absDict_eq_absDictF hB, addOpt_comm]

theorem add_dicts_assoc_of_noneFree {K : Type} [DecidableEq K] {A B C : Dict K}
    (hA : NoneFree A) (hB : NoneFree B) (hC : NoneFree C)
    (hAnd : (A.map Prod.fst).Nodup) (hBnd : (B.map Prod.fst).Nodup)
    (hCnd : (C.map Prod.fst).Nodup) :
    ∃ AB ABC BC ABC', add_dicts A B = .ok AB ∧ add_dicts AB C = .ok ABC ∧
      add_dicts B C = .ok BC ∧ add_dicts A BC = .ok ABC' ∧ dictEq ABC ABC' := by
  obtain ⟨AB, hAB, hABnf, hABnd, hABabs⟩ := add_dicts_ok B A hA hAnd hBnd
  obtain ⟨ABC, hABC, hABCnf, _, hABCabs⟩ := add_dicts_ok C AB hABnf hABnd hCnd
  obtain ⟨BC, hBC, hBCnf, hBCnd, hBCabs⟩ := add_dicts_ok C B hB hBnd hCnd
  obtain ⟨ABC', hABC', hABC'nf, _, hABC'abs⟩ := add_dicts_ok BC A hA hAnd hBCnd
  refine ⟨AB, ABC, BC, ABC', hAB, hABC, hBC, hABC', ?_⟩
  apply dictEq_of_absDict_eq hABCnf hABC'nf
  rw [hABCabs, hABC'abs, hABabs, ← absDict_eq_absDictF hBCnf, hBCabs,
    ← absDict_eq_absDictF hB, ← absDict_eq_absDictF hC, addOpt_assoc]

/-- C1 counterexample: with A = {0: None} and B = {}, add_dicts(A, B) keeps
the None entry while add_dicts(B, A) drops it, so the two merges differ and
commutativity fails on ResultMaps holding a None value; moreover a None
contributed by the first argument is not ignored: merging {0: None} with
{0: 1} raises a TypeError instead of keeping the finite value. -/
theorem C1_add_dicts_counterexample :
    add_dicts [((0 : Nat), (none : PyVal))] ([] : Dict Nat)
      = .ok [((0 : Nat), (none : PyVal))] ∧
    add_dicts ([] : Dict Nat) [((0 : Nat), (none : PyVal))] = .ok [] ∧
    ¬ dictEq [((0 : Nat), (none : PyVal))] ([] : Dict Nat) ∧
    add_dicts [((0 : Nat), (none : PyVal))] [((0 : Nat), (some 1 : PyVal))]
      = .error .typeError := by
  refine ⟨rfl, rfl, ?_, rfl⟩
  intro h
  have h0 := h 0
  simp [dictGet] at h0

/-- C1 (amended): on ResultMaps that contain no None value (and, as for
every Python dict, no duplicate key), add_dicts is commutative and
associative up to dictionary equality; a missing key behaves as the
additive identity 0 (the empty dictionary is a two-sided identity); a None
value contributed by the second argument is ignored and the first
argument's value, if present, is kept unchanged; a None value stored in
the first argument is not ignored: adding a finite value to it raises a
TypeError. -/
theorem C1_add_dicts_merge_algebra {K : Type} [DecidableEq K] (A B C : Dict K)
    (hA : NoneFree A) (hB : NoneFree B) (hC : NoneFree C)
    (hAnd : (A.map Prod.fst).Nodup) (hBnd : (B.map Prod.fst).Nodup)
    (hCnd : (C.map Prod.fst).Nodup) :
    (∃ AB BA, add_dicts A B = .ok AB ∧ add_dicts B A = .ok BA ∧ dictEq AB BA) ∧
    (∃ AB ABC BC ABC', add_dicts A B = .ok AB ∧ add_dicts AB C = .ok ABC ∧
      add_dicts B C = .ok BC ∧ add_dicts A BC = .ok ABC' ∧ dictEq ABC ABC') ∧
    add_dicts A ([] : Dict K) = .ok A ∧
    (∃ E, add_dicts ([] : Dict K) A = .ok E ∧ dictEq E A) ∧
    (∀ k, add_dicts A [(k, (none : PyVal))] = .ok A) ∧
    (∀ (D : Dict K) (k : K) (v : Int), dictGet D k = some none →
      add_dicts D [(k, (some v : PyVal))] = .error .typeError) := by
  refine ⟨add_dicts_comm_of_noneFree hA hB hAnd hBnd,
    add_dicts_assoc_of_noneFree hA hB hC hAnd hBnd hCnd, rfl, ?_, fun k => rfl, ?_⟩
  · obtain ⟨E, hE, hEnf, _, hEabs⟩ := add_dicts_ok A [] noneFree_nil (by simp) hAnd
    refine ⟨E, hE, dictEq_of_absDict_eq hEnf hA ?_⟩
    rw [hEabs, absDict_nil, addOpt_none_left, ← absDict_eq_absDictF hA]
  · intro D k v h
    simp [add_dicts, getPlus, h]

/-- C1 witness: the amended theorem applied to the concrete None-free
dictionaries A = {true: 1}, B = {false: 2}, C = {true: 3} over Bool keys,
together with concrete instances of the None-skip and TypeError clauses. -/
theorem C1_add_dicts_merge_algebra_witness :
    (∃ AB BA, add_dicts [((true : Bool), (some 1 : PyVal))]
        [((false : Bool), (some 2 : PyVal))] = .ok AB ∧
      add_dicts [((false : Bool), (some 2 : PyVal))]
        [((true : Bool), (some 1 : PyVal))] = .ok BA ∧ dictEq AB BA) ∧
    add_dicts [((true : Bool), (some 1 : PyVal))] [((true : Bool), (none : PyVal))]
      = .ok [((true : Bool), (some 1 : PyVal))] ∧
    add_dicts [((true : Bool), (none : PyVal))] [((true : Bool), (some 5 : PyVal))]
      = .error .typeError := by
  have h := C1_add_dicts_merge_algebra
    [((true : Bool), (some 1 : PyVal))] [((false : Bool), (some 2 : PyVal))]
    [((true : Bool), (some 3 : PyVal))]
    (fun k => by cases k <;> decide) (fun k => by cases k <;> decide)
    (fun k => by cases k <;> decide) (by decide) (by decide) (by decide)
  exact ⟨h.1, h.2.2.2.2.1 true,
    h.2.2.2.2.2 [((true : Bool), (none : PyVal))] true 5 (by decide)⟩

theorem flatten_map_flatMap {α β : Type} (f : α → List β) (ls : List (List α)) :
    (ls.map (fun l => l.flatMap f)).flatten = ls.flatten.flatMap f := by
  induction ls with
  | nil => rfl
  | cons l rest ih => simp [ih]

theorem dmgPairs_append (xs ys : List (String × (List EAsset × List Int))) :
    dmgPairs (xs ++ ys) = dmgPairs xs ++ dmgPairs ys := by
  simp [dmgPairs]

theorem scenPairs_append (xs ys : List (String × ScenOut)) :
    scenPairs (xs ++ ys) = scenPairs xs ++ scenPairs ys := by
  simp [scenPairs]

theorem dmgPairs_gen (rmd : RiskInput → List (String × (List EAsset × List Int)))
    (ris : List RiskInput) :
    dmgPairs (gen_outputs rmd ris) = ris.flatMap (fun ri => dmgPairs (rmd ri)) := by
  induction ris with
  | nil => rfl
  | cons ri rest ih =>
      rw [show gen_outputs rmd (ri :: rest) = rmd ri ++ gen_outputs rmd rest by
        simp [gen_outputs], dmgPairs_append, List.flatMap_cons, ih]

theorem scenPairs_gen (rms : RiskInput → List (String × ScenOut))
    (ris : List RiskInput) :
    scenPairs (gen_outputs rms ris) = ris.flatMap (fun ri => scenPairs (rms ri)) := by
  induction ris with
  | nil => rfl
  | cons ri rest ih =>
      rw [show gen_outputs rms (ri :: rest) = rms ri ++ gen_outputs rms rest by
        simp [gen_outputs], scenPairs_append, List.flatMap_cons, ih]

/-- C3: for a fixed risk-input list and a fixed calculation function
(calc_damage or calc_scenario), running the whole list in one piece and
running any partition of it through the reduction, with the partitions
merged by add_dicts in any completion order, produce equal ResultMaps. -/
theorem C3_partition_invariance
    (ris : List RiskInput)
    (rmd : RiskInput → List (String × (List EAsset × List Int)))
    (rms : RiskInput → List (String × ScenOut))
    (parts qarts : List (List RiskInput))
    (hjoin : parts.flatten = ris) (hperm : qarts.Perm parts) :
    (∃ W R, calc_damage ris rmd = .ok W ∧
      apply_reduce (fun part => calc_damage part rmd) qarts [] = .ok R ∧
      dictEq R W) ∧
    (∃ W R, calc_scenario ris rms = .ok W ∧
      apply_reduce (fun part => calc_scenario part rms) qarts [] = .ok R ∧
      dictEq R W) := by
  constructor
  · obtain ⟨W, hW, hWnf, hWnd, hWabs⟩ := calc_damage_ok ris rmd
    obtain ⟨R, hR, hRnf, hRnd, hRabs⟩ := apply_reduce_ok
      (fun part => calc_damage part rmd)
      (fun part => sumPairs (dmgPairs (gen_outputs rmd part))) qarts []
      noneFree_nil (by simp) (fun part _ => calc_damage_ok part rmd)
    refine ⟨W, R, hW, hR, dictEq_of_absDict_eq hRnf hWnf ?_⟩
    rw [hRabs, hWabs, absDict_nil, addOpt_none_left, sumF_perm (hperm.map _)]
    rw [show parts.map (fun part => sumPairs (dmgPairs (gen_outputs rmd part)))
        = (parts.map (fun part => dmgPairs (gen_outputs rmd part))).map sumPairs by
      rw [List.map_map]; rfl]
    rw [sumF_map_sumPairs,
      show parts.map (fun part => dmgPairs (gen_outputs rmd part))
        = parts.map (fun part => part.flatMap (fun ri => dmgPairs (rmd ri))) by
      simp only [dmgPairs_gen]]
    rw [flatten_map_flatMap, hjoin, ← dmgPairs_gen]
  · obtain ⟨W, hW, hWnf, hWnd, hWabs⟩ := calc_scenario_ok ris rms
    obtain ⟨R, hR, hRnf, hRnd, hRabs⟩ := apply_reduce_ok
      (fun part => calc_scenario part rms)
      (fun part => sumPairs (scenPairs (gen_outputs rms part))) qarts []
      noneFree_nil (by simp) (fun part _ => calc_scenario_ok part rms)
    refine ⟨W, R, hW, hR, dictEq_of_absDict_eq hRnf hWnf ?_⟩
    rw [hRabs, hWabs, absDict_nil, addOpt_none_left, sumF_perm (hperm.map _)]
    rw [show parts.map (fun part => sumPairs (scenPairs (gen_outputs rms part)))
        = (parts.map (fun part => scenPairs (gen_outputs rms part))).map sumPairs by
      rw [List.map_map]; rfl]
    rw [sumF_map_sumPairs,
      show parts.map (fun part => scenPairs (gen_outputs rms part))
        = parts.map (fun part => part.flatMap (fun ri => scenPairs (rms ri))) by
      simp only [scenPairs_gen]]
    rw [flatten_map_flatMap, hjoin, ← scenPairs_gen]

/-- Sample risk input for the partition-invariance witness. -/
def wri1 : RiskInput := ⟨"PGA", 0, [1], []⟩

/-- Second sample risk input for the partition-invariance witness. -/
def wri2 : RiskInput := ⟨"PGA", 1, [2], []⟩

/-- Sample damage risk model for the partition-invariance witness. -/
def wrmd : RiskInput → List (String × (List EAsset × List Int)) :=
  fun ri => [("structural", ([⟨"RC", 1⟩], ri.gmvs))]

/-- Sample scenario risk model for the partition-invariance witness. -/
def wrms : RiskInput → List (String × ScenOut) :=
  fun ri => [("structural", ⟨[], [], some (2 * ri.gmvs.sum), [], none⟩)]

/-- C3 witness: partition invariance applied to the concrete two-element
risk-input list split into the two-partition list, reduced in swapped
completion order. -/
theorem C3_partition_invariance_witness :
    ([[wri1], [wri2]] : List (List RiskInput)).flatten = [wri1, wri2] ∧
    ((∃ W R, calc_damage [wri1, wri2] wrmd = .ok W ∧
      apply_reduce (fun part => calc_damage part wrmd) [[wri2], [wri1]] [] = .ok R ∧
      dictEq R W) ∧
    (∃ W R, calc_scenario [wri1, wri2] wrms = .ok W ∧
      apply_reduce (fun part => calc_scenario part wrms) [[wri2], [wri1]] [] = .ok R ∧
      dictEq R W)) :=
  ⟨rfl, C3_partition_invariance [wri1, wri2] wrmd wrms [[wri1], [wri2]]
    [[wri2], [wri1]] rfl (List.Perm.swap [wri1] [wri2] [])⟩

/-- Specification-side list of taxonomies of the assets appearing in a
list of damage outputs, in order of appearance. -/
def damageTaxonomies (outs : List (String × (List EAsset × List Int))) :
    List String :=
  outs.flatMap (fun lo => lo.2.1.map (fun a => a.taxonomy))

/-- Specification-side damage value for one taxonomy: the sum, over every
output pair and every asset of that taxonomy, of fraction times count. -/
def damageSpecValue (outs : List (String × (List EAsset × List Int)))
    (t : String) : Int :=
  (outs.map (fun lo =>
    (((lo.2.1.zip lo.2.2).filter (fun pa => decide (pa.1.taxonomy = t))).map
      (fun pa => pa.2 * pa.1.number)).sum)).sum

theorem dictGet_eq_absDict_map {K : Type} [DecidableEq K] {d : Dict K}
    (hd : NoneFree d) (k : K) : dictGet d k = (absDict d k).map some := by
  cases hg : dictGet d k with
  | none => simp [absDict, hg]
  | some ov =>
      cases ov with
      | none => exact absurd hg (hd k)
      | some a => simp [absDict, hg]

theorem filter_key_eq_nil_iff {K : Type} [DecidableEq K] (ps : List (K × Int)) (t : K) :
    ps.filter (fun p => decide (p.1 = t)) = [] ↔ t ∉ ps.map Prod.fst := by
  rw [List.filter_eq_nil_iff]
  simp only [decide_eq_true_eq, List.mem_map, not_exists]
  tauto

theorem dmg_keys (outs : List (String × (List EAsset × List Int)))
    (hlen : ∀ lo ∈ outs, lo.2.1.length = lo.2.2.length) :
    (dmgPairs outs).map Prod.fst = damageTaxonomies outs := by
  induction outs with
  | nil => rfl
  | cons lo rest ih =>
      have hlo := hlen lo (by simp)
      rw [show dmgPairs (lo :: rest) =
          ((lo.2.1.zip lo.2.2).map
            (fun pa => (pa.1.taxonomy, pa.2 * pa.1.number))) ++ dmgPairs rest by
        simp [dmgPairs]]
      rw [show damageTaxonomies (lo :: rest) =
          lo.2.1.map (fun a => a.taxonomy) ++ damageTaxonomies rest by
        simp [damageTaxonomies]]
      rw [List.map_append, ih (fun l hl => hlen l (by simp [hl]))]
      congr 1
      rw [List.map_map]
      rw [show (Prod.fst ∘ fun pa : EAsset × Int => (pa.1.taxonomy, pa.2 * pa.1.number))
          = (fun a : EAsset => a.taxonomy) ∘ Prod.fst from rfl]
      rw [← List.map_map, List.map_fst_zip _ _ (le_of_eq hlo)]

theorem dmg_value (outs : List (String × (List EAsset × List Int))) (t : String) :
    (((dmgPairs outs).filter (fun p => decide (p.1 = t))).map Prod.snd).sum
      = damageSpecValue outs t := by
  induction outs with
  | nil => rfl
  | cons lo rest ih =>
      rw [show dmgPairs (lo :: rest) =
          ((lo.2.1.zip lo.2.2).map
            (fun pa => (pa.1.taxonomy, pa.2 * pa.1.number))) ++ dmgPairs rest by
        simp [dmgPairs]]
      rw [List.filter_append, List.map_append, List.sum_append, ih]
      rw [show damageSpecValue (lo :: rest) t =
          (((lo.2.1.zip lo.2.2).filter (fun pa => decide (pa.1.taxonomy = t))).map
            (fun pa => pa.2 * pa.1.number)).sum + damageSpecValue rest t by
        simp [damageSpecValue]]
      congr 2
      rw [List.filter_map, List.map_map]
      rfl

/-- C4: calc_damage succeeds and returns a ResultMap whose keys are exactly
the taxonomies of the assets appearing in the risk-model outputs, each
mapped to the sum over the output pairs and the assets of that taxonomy of
fraction times asset count (the lengths hypothesis states the risk-model
contract that each output carries one fraction per asset). -/
theorem C4_calc_damage_characterization (ris : List RiskInput)
    (rm : RiskInput → List (String × (List EAsset × List Int)))
    (hlen : ∀ lo ∈ gen_outputs rm ris, lo.2.1.length = lo.2.2.length) :
    ∃ r, calc_damage ris rm = .ok r ∧
      (∀ t, dictGet r t ≠ none ↔ t ∈ damageTaxonomies (gen_outputs rm ris)) ∧
      (∀ t, t ∈ damageTaxonomies (gen_outputs rm ris) →
        dictGet r t = some (some (damageSpecValue (gen_outputs rm ris) t))) := by
  obtain ⟨r, hr, hnf, hnd, habs⟩ := calc_damage_ok ris rm
  have hget : ∀ t, dictGet r t = (sumPairs (dmgPairs (gen_outputs rm ris)) t).map some :=
    fun t => by rw [dictGet_eq_absDict_map hnf, habs]
  refine ⟨r, hr, fun t => ?_, fun t ht => ?_⟩
  · rw [hget t, sumPairs_eval]
    by_cases hfil : (dmgPairs (gen_outputs rm ris)).filter (fun p => decide (p.1 = t)) = []
    · rw [if_pos hfil]
      rw [filter_key_eq_nil_iff, dmg_keys _ hlen] at hfil
      simp [hfil]
    · rw [if_neg hfil]
      have := (not_iff_not.mpr (filter_key_eq_nil_iff
        (dmgPairs (gen_outputs rm ris)) t)).mp hfil
      rw [dmg_keys _ hlen] at this
      simp only [not_not] at this
      simp [this]
  · rw [hget t, sumPairs_eval]
    have hfil : ¬ ((dmgPairs (gen_outputs rm ris)).filter (fun p => decide (p.1 = t)) = []) := by
      rw [filter_key_eq_nil_iff, dmg_keys _ hlen]
      simp [ht]
    rw [if_neg hfil, dmg_value]
    rfl

/-- Sample risk input for the calc_damage witness. -/
def w4ri : RiskInput := ⟨"PGA", 0, [7], []⟩

/-- Sample damage risk model for the calc_damage witness: two RC assets
and one WOOD asset, with one damage fraction per asset. -/
def w4rm : RiskInput → List (String × (List EAsset × List Int)) :=
  fun _ => [("structural", ([⟨"RC", 2⟩, ⟨"RC", 3⟩, ⟨"WOOD", 1⟩], [10, 20, 30]))]

/-- C4 witness: the characterization applied to a concrete one-input run
with two RC assets and one WOOD asset. -/
theorem C4_calc_damage_characterization_witness :
    (∀ lo ∈ gen_outputs w4rm [w4ri], lo.2.1.length = lo.2.2.length) ∧
    (∃ r, calc_damage [w4ri] w4rm = .ok r ∧
      (∀ t, dictGet r t ≠ none ↔ t ∈ damageTaxonomies (gen_outputs w4rm [w4ri])) ∧
      (∀ t, t ∈ damageTaxonomies (gen_outputs w4rm [w4ri]) →
        dictGet r t = some (some (damageSpecValue (gen_outputs w4rm [w4ri]) t)))) :=
  ⟨by decide, C4_calc_damage_characterization [w4ri] w4rm (by decide)⟩

/-- Specification-side list of the non-None aggregate losses contributed
for one loss type. -/
def aggLossList (outs : List (String × ScenOut)) (lt : String) : List Int :=
  (outs.filter (fun lo => decide (lo.1 = lt))).filterMap (fun lo => lo.2.aggregate_losses)

/-- Specification-side list of the non-None aggregate insured losses
contributed for one loss type. -/
def insLossList (outs : List (String × ScenOut)) (lt : String) : List Int :=
  (outs.filter (fun lo => decide (lo.1 = lt))).filterMap (fun lo => lo.2.insured_losses)

theorem scen_filter_agg (outs : List (String × ScenOut)) (lt : String) :
    ((scenPairs outs).filter (fun p => decide (p.1 = (AggKind.agg, lt)))).map Prod.snd
      = aggLossList outs lt := by
  induction outs with
  | nil => rfl
  | cons lo rest ih =>
      obtain ⟨lt', o⟩ := lo
      obtain ⟨oas, olrm, oagg, oilm, oins⟩ := o
      rw [show scenPairs ((lt', ⟨oas, olrm, oagg, oilm, oins⟩) :: rest)
          = scenPairsOne lt' ⟨oas, olrm, oagg, oilm, oins⟩ ++ scenPairs rest by
        simp [scenPairs]]
      rw [List.filter_append, List.map_append, ih]
      by_cases hlt : lt' = lt
      · subst hlt
        cases oagg <;> cases oins <;>
          simp [scenPairsOne, aggLossList, List.filter_cons]
      · cases oagg <;> cases oins <;>
          simp [scenPairsOne, aggLossList, List.filter_cons, hlt]

theorem scen_filter_ins (outs : List (String × ScenOut)) (lt : String) :
    ((scenPairs outs).filter (fun p => decide (p.1 = (AggKind.ins, lt)))).map Prod.snd
      = insLossList outs lt := by
  induction outs with
  | nil => rfl
  | cons lo rest ih =>
      obtain ⟨lt', o⟩ := lo
      obtain ⟨oas, olrm, oagg, oilm, oins⟩ := o
      rw [show scenPairs ((lt', ⟨oas, olrm, oagg, oilm, oins⟩) :: rest)
          = scenPairsOne lt' ⟨oas, olrm, oagg, oilm, oins⟩ ++ scenPairs rest by
        simp [scenPairs]]
      rw [List.filter_append, List.map_append, ih]
      by_cases hlt : lt' = lt
      · subst hlt
        cases oagg <;> cases oins <;>
          simp [scenPairsOne, insLossList, List.filter_cons]
      · cases oagg <;> cases oins <;>
          simp [scenPairsOne, insLossList, List.filter_cons, hlt]

/-- Sample risk input for the calc_scenario counterexample. -/
def w5ri : RiskInput := ⟨"PGA", 0, [1], []⟩

/-- Sample scenario risk model whose single output carries a None insured
loss, as the add_dicts docstring anticipates. -/
def w5rm : RiskInput → List (String × ScenOut) :=
  fun _ => [("structural", ⟨[], [], some 5, [], none⟩)]

/-- C5 counterexample: a risk model producing loss type structural with
aggregate losses 5 and insured losses None yields a ResultMap with the
single key (agg, structural); the claimed second key (ins, structural) is
absent, so the map does not hold exactly two keys per produced loss type. -/
theorem C5_calc_scenario_counterexample :
    calc_scenario [w5ri] w5rm
      = .ok [((AggKind.agg, "structural"), (some 5 : PyVal))] ∧
    dictGet [((AggKind.agg, "structural"), (some 5 : PyVal))]
      (AggKind.ins, "structural") = none := by
  constructor
  · rfl
  · decide

/-- C5 (amended): calc_scenario succeeds and returns a ResultMap whose
every key has the form (agg, loss_type) or (ins, loss_type); the key
(agg, lt) is present exactly when some output for lt carries a non-None
aggregate loss and then holds the sum of those losses, and symmetrically
for (ins, lt) with the aggregate insured losses; in particular, when every
output value is non-None the map holds exactly the two claimed keys per
produced loss type. -/
theorem C5_calc_scenario_characterization (ris : List RiskInput)
    (rms : RiskInput → List (String × ScenOut)) :
    ∃ r, calc_scenario ris rms = .ok r ∧
      (∀ lt, dictGet r (AggKind.agg, lt) =
        if aggLossList (gen_outputs rms ris) lt = [] then none
        else some (some (aggLossList (gen_outputs rms ris) lt).sum)) ∧
      (∀ lt, dictGet r (AggKind.ins, lt) =
        if insLossList (gen_outputs rms ris) lt = [] then none
        else some (some (insLossList (gen_outputs rms ris) lt).sum)) := by
  obtain ⟨r, hr, hnf, hnd, habs⟩ := calc_scenario_ok ris rms
  have hget : ∀ kk, dictGet r kk
      = (sumPairs (scenPairs (gen_outputs rms ris)) kk).map some :=
    fun kk => by rw [dictGet_eq_absDict_map hnf, habs]
  refine ⟨r, hr, fun lt => ?_, fun lt => ?_⟩
  · rw [hget]
    have hagg := scen_filter_agg (gen_outputs rms ris) lt
    by_cases hfil : (scenPairs (gen_outputs rms ris)).filter
        (fun p => decide (p.1 = (AggKind.agg, lt))) = []
    · have hnil : aggLossList (gen_outputs rms ris) lt = [] := by
        rw [← hagg, hfil]
        rfl
      rw [sumPairs_eval_nil hfil]
      simp [hnil]
    · have hne : ¬ aggLossList (gen_outputs rms ris) lt = [] := by
        rw [← hagg]
        intro hmap
        exact hfil (List.map_eq_nil_iff.mp hmap)
      rw [sumPairs_eval_ne hfil, hagg]
      simp [hne]
  · rw [hget]
    have hins := scen_filter_ins (gen_outputs rms ris) lt
    by_cases hfil : (scenPairs (gen_outputs rms ris)).filter
        (fun p => decide (p.1 = (AggKind.ins, lt))) = []
    · have hnil : insLossList (gen_outputs rms ris) lt = [] := by
        rw [← hins, hfil]
        rfl
      rw [sumPairs_eval_nil hfil]
      simp [hnil]
    · have hne : ¬ insLossList (gen_outputs rms ris) lt = [] := by
        rw [← hins]
        intro hmap
        exact hfil (List.map_eq_nil_iff.mp hmap)
      rw [sumPairs_eval_ne hfil, hins]
      simp [hne]

/-- A site, identified by its number (site.id in the source). -/
abbrev Site := Nat

/-- A rupture; its distance to each site abstracts the geometry consulted
by the rupture-level distance filter. -/
structure Rupture where
  dist : Site → Int

/-- A seismic source: its enumerable ruptures and its rough-geometry
distance to each site, as consulted by the source-level filter. -/
structure Source where
  ruptures : List Rupture
  dist : Site → Int

/-- Modelled from the spec: src.filter_sites_by_distance_to_source
(openquake.hazardlib, not in src): keep the sites within maximum_distance
of the rough geometry of the source; None when no site remains. -/
def filter_sites_by_distance_to_source (src : Source) (maximum_distance : Int)
    (site_coll : List Site) : Option (List Site) :=
  let s := site_coll.filter (fun site => decide (src.dist site ≤ maximum_distance))
  if s.isEmpty then none else some s

/-- Modelled from the spec: filters.filter_sites_by_distance_to_rupture
(openquake.hazardlib.calc.filters, not in src): keep the sites within
maximum_distance of the rupture; None when no site remains. -/
def filter_sites_by_distance_to_rupture (rup : Rupture) (maximum_distance : Int)
    (sites : List Site) : Option (List Site) :=
  let s := sites.filter (fun site => decide (rup.dist site ≤ maximum_distance))
  if s.isEmpty then none else some s

/-- The named record yielded by gen_ruptures. -/
structure SourceRuptureSites where
  source : Source
  rupture : Rupture
  sites : List Site

/-- Embedding of gen_ruptures from openquake/commonlib/calc.py.  The second
component models the generating-ruptures monitor: the sources whose
iter_ruptures was invoked, in iteration order (a source failing the cheap
filter is skipped before enumeration). -/
def gen_ruptures (sources : List Source) (site_coll : List Site)
    (maximum_distance : Int) : List SourceRuptureSites × List Source :=
  match sources with
  | [] => ([], [])
  | src :: rest =>
      match filter_sites_by_distance_to_source src maximum_distance site_coll with
      | none => gen_ruptures rest site_coll maximum_distance
      | some s_sites =>
          let ruptures := src.ruptures
          let recs := ruptures.filterMap (fun rupture =>
            (filter_sites_by_distance_to_rupture rupture maximum_distance s_sites).map
              (fun r_sites => ⟨src, rupture, r_sites⟩))
          let rrest := gen_ruptures rest site_coll maximum_distance
          (recs ++ rrest.1, src :: rrest.2)

/-- The record sequence as the specification words it: source iteration
order, then rupture generation order within each surviving source, each
rupture filtered against the already-reduced site subset. -/
def gen_ruptures_spec (sources : List Source) (site_coll : List Site)
    (maximum_distance : Int) : List SourceRuptureSites :=
  sources.flatMap (fun src =>
    match filter_sites_by_distance_to_source src maximum_distance site_coll with
    | none => []
    | some s_sites =>
        src.ruptures.filterMap (fun rupture =>
          (filter_sites_by_distance_to_rupture rupture maximum_distance s_sites).map
            (fun r_sites => ⟨src, rupture, r_sites⟩)))

theorem filter_rupture_some_ne_nil {rup : Rupture} {md : Int} {sites : List Site}
    {s : List Site} (h : filter_sites_by_distance_to_rupture rup md sites = some s) :
    s ≠ [] := by
  unfold filter_sites_by_distance_to_rupture at h
  cases hl : sites.filter (fun site => decide (rup.dist site ≤ md)) with
  | nil => rw [hl] at h; simp [List.isEmpty] at h
  | cons a t =>
      rw [hl] at h
      simp [List.isEmpty] at h
      rw [← h]
      simp

/-- C6: gen_ruptures enumerates the ruptures of exactly the sources passing
the cheap source-level distance filter (in iteration order), discarding the
others unenumerated; its records follow the specification order (source
iteration order, then rupture generation order, each rupture filtered
against the already-reduced site subset); and every yielded record carries
a non-empty affected-site subset. -/
theorem C6_gen_ruptures_filtering (sources : List Source) (site_coll : List Site)
    (md : Int) :
    (gen_ruptures sources site_coll md).2 = sources.filter
      (fun src => (filter_sites_by_distance_to_source src md site_coll).isSome) ∧
    (gen_ruptures sources site_coll md).1 = gen_ruptures_spec sources site_coll md ∧
    (∀ rec ∈ (gen_ruptures sources site_coll md).1, rec.sites ≠ []) := by
  induction sources with
  | nil => exact ⟨rfl, rfl, fun rec h => absurd h (by simp [gen_ruptures])⟩
  | cons src rest ih =>
      obtain ⟨ih1, ih2, ih3⟩ := ih
      cases hf : filter_sites_by_distance_to_source src md site_coll with
      | none =>
          refine ⟨?_, ?_, ?_⟩
          · rw [show gen_ruptures (src :: rest) site_coll md
                = gen_ruptures rest site_coll md by simp [gen_ruptures, hf]]
            rw [ih1, List.filter_cons]
            simp [hf]
          · rw [show gen_ruptures (src :: rest) site_coll md
                = gen_ruptures rest site_coll md by simp [gen_ruptures, hf]]
            rw [ih2]
            simp [gen_ruptures_spec, hf]
          · rw [show gen_ruptures (src :: rest) site_coll md
                = gen_ruptures rest site_coll md by simp [gen_ruptures, hf]]
            exact ih3
      | some s_sites =>
          have hstep : gen_ruptures (src :: rest) site_coll md =
              (src.ruptures.filterMap (fun rupture =>
                (filter_sites_by_distance_to_rupture rupture md s_sites).map
                  (fun r_sites => ⟨src, rupture, r_sites⟩)) ++
                (gen_ruptures rest site_coll md).1,
               src :: (gen_ruptures rest site_coll md).2) := by
            simp [gen_ruptures, hf]
          refine ⟨?_, ?_, ?_⟩
          · rw [hstep]
            rw [List.filter_cons]
            simp only [hf, Option.isSome_some, if_pos]
            rw [ih1]
          · rw [hstep]
            simp only [gen_ruptures_spec, List.flatMap_cons, hf]
            rw [ih2]
            rfl
          · rw [hstep]
            intro rec hrec
            simp only [List.mem_append] at hrec
            rcases hrec with hrec | hrec
            · rw [List.mem_filterMap] at hrec
              obtain ⟨rupture, _, hsome⟩ := hrec
              cases hr : filter_sites_by_distance_to_rupture rupture md s_sites with
              | none => rw [hr] at hsome; simp at hsome
              | some r_sites =>
                  rw [hr, Option.map_some'] at hsome
                  cases hsome
                  exact filter_rupture_some_ne_nil hr
            · exact ih3 rec hrec

/-- Rupture affecting sites by their index for the gen_ruptures witness. -/
def w6rup1 : Rupture := ⟨fun s => (s : Int)⟩

/-- Rupture far from every site for the gen_ruptures witness. -/
def w6rup2 : Rupture := ⟨fun _ => 99⟩

/-- Near source carrying the two witness ruptures. -/
def w6near : Source := ⟨[w6rup1, w6rup2], fun _ => 0⟩

/-- Source beyond maximum distance of every site, never enumerated. -/
def w6far : Source := ⟨[⟨fun _ => 0⟩], fun _ => 100⟩

/-- C6 witness: on the concrete two-source run, only the near source is
enumerated, the records equal the specification order, and the concrete
yielded record carries the non-empty site set [0, 5]. -/
theorem C6_gen_ruptures_filtering_witness :
    (gen_ruptures [w6far, w6near] [0, 5] 10).2 = [w6far, w6near].filter
      (fun src => (filter_sites_by_distance_to_source src 10 [0, 5]).isSome) ∧
    (gen_ruptures [w6far, w6near] [0, 5] 10).1
      = gen_ruptures_spec [w6far, w6near] [0, 5] 10 ∧
    ([0, 5] : List Site) ≠ [] := by
  have h := C6_gen_ruptures_filtering [w6far, w6near] [0, 5] 10
  refine ⟨h.1, h.2.1, ?_⟩
  have hmem : (⟨w6near, w6rup1, [0, 5]⟩ : SourceRuptureSites)
      ∈ (gen_ruptures [w6far, w6near] [0, 5] 10).1 := by
    rw [show (gen_ruptures [w6far, w6near] [0, 5] 10).1
        = [⟨w6near, w6rup1, [0, 5]⟩] from rfl]
    exact List.mem_singleton.mpr rfl
  exact h.2.2 _ hmem

/-- An intensity measure type, by its string form. -/
abbrev IMT := String

/-- A ground-motion model.  Modelled from the spec: the GSIM is consumed
through a single evaluation producing the ground-motion value of an IMT at
a site, deterministically from rupture, truncation level, correlation
model, IMT, seed and site. -/
structure Gsim where
  name : String
  gmv : Rupture → Option Int → Option String → IMT → Nat → Site → Int

/-- Modelled from the spec: the standard library PRNG (random.Random) used
by calc_gmfs, a deterministic function of the seed; stand-in congruential
draw of the i-th value. -/
def randDraw (seed : Nat) (i : Nat) : Nat :=
  (seed * 1103515245 + i * 12345 + 12345) % 2147483648

/-- The per-realization seed list of calc_gmfs: one independent draw per
realization, a function of random_seed alone. -/
def drawSeeds (seed : Nat) (n : Nat) : List Nat :=
  (List.range n).map (randDraw seed)

/-- The calculation configuration (oqparam).  Option-typed fields model
attributes that may be absent (getattr with default, or a raised
AttributeError on direct access); the collaborator getters of
openquake.commonlib.readinput and riskmodels (get_imts, get_gsim,
get_rupture, get_correl_model, get_sitecol_assets, get_risk_model), which
are not in src, are modelled from the spec as configuration fields. -/
structure OqParam where
  calculation_mode : String
  maximum_distance : Int
  random_seed : Option Nat
  master_seed : Option Nat
  truncation_level : Option Int
  number_of_ground_motion_fields : Option Nat
  asset_correlation : Option Int
  imts : List IMT
  gsim : Gsim
  rupture : Rupture
  correl_model : Option String
  sitecol : List Site
  assets_by_site : List (List EAsset)
  risk_model_damage : RiskInput → List (String × (List EAsset × List Int))
  risk_model_scen : RiskInput → List (String × ScenOut)

/-- Modelled from the spec: gmf.GmfComputer (openquake.hazardlib, not in
src), the streaming-mode simulator. -/
structure GmfComputer where
  rupture : Rupture
  sitecol : List Site
  imts : List IMT
  gsims : List Gsim
  truncation_level : Option Int
  correl_model : Option String

/-- Modelled from the spec: GmfComputer.compute(seed) yields, for each
(gsim name, imt) pair, the vector of ground-motion values over the sites,
deterministically from the computer state and the seed. -/
def GmfComputer.compute (c : GmfComputer) (seed : Nat) :
    List ((String × IMT) × List Int) :=
  c.gsims.flatMap (fun g => c.imts.map (fun imt =>
    ((g.name, imt),
     c.sitecol.map (g.gmv c.rupture c.truncation_level c.correl_model imt seed))))

/-- numpy.array(rows).T on a rectangular list of rows. -/
def transposeMat (m : List (List Int)) : List (List Int) :=
  match m with
  | [] => []
  | r0 :: _ => (List.range r0.length).map (fun j => m.map (fun row => row.getD j 0))

/-- Extensional content of a defaultdict(list) fed by appends: one entry
per distinct key, each carrying every value appended to it, in append
order (the iteration order of the Python 2 dictionary is arbitrary, and
nothing downstream depends on it). -/
def groupPairs {A B : Type} [DecidableEq A] (l : List (A × B)) : List (A × List B) :=
  (l.map Prod.fst).dedup.map
    (fun a => (a, l.filterMap (fun ab => if ab.1 = a then some ab.2 else none)))

/-- The (imt, gmvs) append stream of the calc_gmfs loop: for each drawn
seed, the computed vectors of each IMT, the gsim name discarded. -/
def gmfItems (p : OqParam) (sitecol : List Site) : List (IMT × List Int) :=
  (drawSeeds (p.random_seed.getD 42) (p.number_of_ground_motion_fields.getD 1)).flatMap
    (fun sd =>
      ((GmfComputer.mk p.rupture sitecol p.imts [p.gsim] p.truncation_level
        p.correl_model).compute sd).map (fun q => (q.1.2, q.2)))

/-- Embedding of calc_gmfs (streaming mode) from openquake/commonlib/calc.py:
seed the PRNG with random_seed (default 42), draw one seed per requested
field (default 1), accumulate the computed vectors per IMT, and transpose
each accumulated matrix. -/
def calc_gmfs (p : OqParam) (sitecol : List Site) : List (IMT × List (List Int)) :=
  (groupPairs (gmfItems p sitecol)).map (fun g => (g.1, transposeMat g.2))

/-- Modelled from the spec: gmf.ground_motion_fields (bulk mode,
openquake.hazardlib, not in src): all realizations in one pass, with the
rupture-site distance filter applied inside the call, deterministic in its
arguments. -/
def ground_motion_fields (rupture : Rupture) (sitecol : List Site)
    (imts : List IMT) (gsim : Gsim) (trunc : Option Int) (n : Nat)
    (correl : Option String) (maxdist : Int) (seed : Nat) :
    List (IMT × List (List Int)) :=
  let fsites := sitecol.filter (fun s => decide (rupture.dist s ≤ maxdist))
  imts.map (fun imt => (imt,
    fsites.map (fun s => (List.range n).map
      (fun j => gsim.gmv rupture trunc correl imt (randDraw seed j) s))))

/-- Embedding of calc_gmfs_fast from openquake/commonlib/calc.py: one bulk
call carrying the maximum-distance site filter. -/
def calc_gmfs_fast (p : OqParam) (sitecol : List Site) :
    List (IMT × List (List Int)) :=
  ground_motion_fields p.rupture sitecol p.imts p.gsim p.truncation_level
    (p.number_of_ground_motion_fields.getD 1) p.correl_model p.maximum_distance
    (p.random_seed.getD 42)

/-- The vector computed for one IMT and one seed over the site collection. -/
def gmfVec (p : OqParam) (sitecol : List Site) (imt : IMT) (sd : Nat) : List Int :=
  sitecol.map (p.gsim.gmv p.rupture p.truncation_level p.correl_model imt sd)

theorem drawSeeds_length (seed n : Nat) : (drawSeeds seed n).length = n := by
  simp [drawSeeds]

theorem gmfItems_eq (p : OqParam) (sitecol : List Site) :
    gmfItems p sitecol =
      (drawSeeds (p.random_seed.getD 42)
        (p.number_of_ground_motion_fields.getD 1)).flatMap
        (fun sd => p.imts.map (fun imt => (imt, gmfVec p sitecol imt sd))) := by
  unfold gmfItems GmfComputer.compute gmfVec
  simp [List.map_map]
  rfl

theorem mem_groupPairs {A B : Type} [DecidableEq A] {l : List (A × B)} {a : A}
    {bs : List B} (h : (a, bs) ∈ groupPairs l) :
    a ∈ l.map Prod.fst ∧
    bs = l.filterMap (fun ab => if ab.1 = a then some ab.2 else none) := by
  unfold groupPairs at h
  rw [List.mem_map] at h
  obtain ⟨a', ha', heq⟩ := h
  have h1 : a' = a := congrArg Prod.fst heq
  subst h1
  exact ⟨List.mem_dedup.mp ha', (congrArg Prod.snd heq).symm⟩

theorem filterMap_flatMap_eq {α β γ : Type} (l : List α) (g : α → List β)
    (f : β → Option γ) :
    (l.flatMap g).filterMap f = l.flatMap (fun a => (g a).filterMap f) := by
  induction l with
  | nil => rfl
  | cons a rest ih => simp [List.filterMap_append, ih]

theorem flatMap_singleton_eq_map {α β : Type} (l : List α) (g : α → β) :
    l.flatMap (fun x => [g x]) = l.map g := by
  induction l with
  | nil => rfl
  | cons a rest ih => simp [ih]

theorem filterMap_key_map {A B : Type} [DecidableEq A] (ts : List A) (f : A → B)
    (a : A) (hnd : ts.Nodup) (ha : a ∈ ts) :
    (ts.map (fun t => (t, f t))).filterMap
      (fun tb => if tb.1 = a then some tb.2 else none) = [f a] := by
  induction ts with
  | nil => cases ha
  | cons t rest ih =>
      simp only [List.nodup_cons] at hnd
      by_cases h : t = a
      · subst h
        have hrest : (rest.map (fun t' => (t', f t'))).filterMap
            (fun tb => if tb.1 = t then some tb.2 else none) = [] := by
          rw [List.filterMap_eq_nil_iff]
          intro tb htb
          rw [List.mem_map] at htb
          obtain ⟨t', ht', rfl⟩ := htb
          have : ¬ t' = t := fun heq => hnd.1 (heq ▸ ht')
          simp [this]
        simp [List.filterMap_cons, hrest]
      · have ha' : a ∈ rest := by
          rcases List.mem_cons.mp ha with h' | h'
          · exact absurd h'.symm h
          · exact h'
        simp [List.filterMap_cons, h, ih hnd.2 ha']

theorem transposeMat_shape {m : List (List Int)} {s : Nat}
    (hne : m ≠ []) (hlen : ∀ row ∈ m, row.length = s) :
    (transposeMat m).length = s ∧ ∀ col ∈ transposeMat m, col.length = m.length := by
  cases m with
  | nil => exact absurd rfl hne
  | cons r0 rest =>
      constructor
      · simp [transposeMat, hlen r0 (by simp)]
      · intro col hcol
        simp only [transposeMat, List.mem_map, List.mem_range] at hcol
        obtain ⟨j, _, hcol⟩ := hcol
        rw [← hcol]
        simp

/-- C7: every matrix in the mapping returned by calc_gmfs has one row per
site of the site collection and one column per requested ground-motion
field, the realization count defaulting to 1 when the parameter is absent
(the IMT list, produced by get_imts from a dictionary, has no duplicate). -/
theorem C7_calc_gmfs_shape (p : OqParam) (sitecol : List Site)
    (hnd : p.imts.Nodup) :
    ∀ imt m, (imt, m) ∈ calc_gmfs p sitecol →
      m.length = sitecol.length ∧
      ∀ row ∈ m, row.length = p.number_of_ground_motion_fields.getD 1 := by
  intro imt m hmem
  unfold calc_gmfs at hmem
  rw [List.mem_map] at hmem
  obtain ⟨g, hg, heq⟩ := hmem
  obtain ⟨a, bs⟩ := g
  have h1 : a = imt := congrArg Prod.fst heq
  subst h1
  have hm : m = transposeMat bs := (congrArg Prod.snd heq).symm
  obtain ⟨hkey, hbs⟩ := mem_groupPairs hg
  rw [gmfItems_eq] at hkey hbs
  have hkey2 : (∃ sd, sd ∈ drawSeeds (p.random_seed.getD 42)
      (p.number_of_ground_motion_fields.getD 1)) ∧ a ∈ p.imts := by
    rw [List.mem_map] at hkey
    obtain ⟨q, hq, hqa⟩ := hkey
    rw [List.mem_flatMap] at hq
    obtain ⟨sd, hsd, hqF⟩ := hq
    rw [List.mem_map] at hqF
    obtain ⟨imt', himt', hq'⟩ := hqF
    refine ⟨⟨sd, hsd⟩, ?_⟩
    have himt'a : imt' = a := by
      rw [← hq'] at hqa
      exact hqa
    rwa [himt'a] at himt'
  obtain ⟨⟨sd0, hsd0⟩, ha_imts⟩ := hkey2
  have hper : ∀ sd : Nat, ((p.imts.map
      (fun imt' => (imt', gmfVec p sitecol imt' sd))).filterMap
      (fun ab => if ab.1 = a then some ab.2 else none)) = [gmfVec p sitecol a sd] :=
    fun sd => filterMap_key_map p.imts (fun imt' => gmfVec p sitecol imt' sd) a hnd
      ha_imts
  have hrows : bs = (drawSeeds (p.random_seed.getD 42)
      (p.number_of_ground_motion_fields.getD 1)).map (fun sd => gmfVec p sitecol a sd) := by
    rw [hbs, filterMap_flatMap_eq]
    simp only [hper]
    exact flatMap_singleton_eq_map _ _
  have hbs_ne : bs ≠ [] := by
    rw [hrows]
    intro hnil
    rw [List.map_eq_nil_iff] at hnil
    rw [hnil] at hsd0
    cases hsd0
  have hrow_len : ∀ row ∈ bs, row.length = sitecol.length := by
    intro row hrow
    rw [hrows, List.mem_map] at hrow
    obtain ⟨sd, _, hrow⟩ := hrow
    rw [← hrow]
    simp [gmfVec]
  obtain ⟨hlen1, hlen2⟩ := transposeMat_shape hbs_ne hrow_len
  rw [hm]
  refine ⟨hlen1, fun row hrowm => ?_⟩
  have hbslen : bs.length = p.number_of_ground_motion_fields.getD 1 := by
    rw [hrows, List.length_map, drawSeeds_length]
  rw [hlen2 row hrowm, hbslen]

/-- Ground-motion model for the calc_gmfs witnesses: a concrete
deterministic evaluation. -/
def w7gsim : Gsim := ⟨"B", fun _ _ _ _ sd s => Int.ofNat (sd % 1000 + s)⟩

/-- Concrete configuration for the calc_gmfs shape witness: two IMTs,
three requested fields, two sites. -/
def w7p : OqParam :=
  ⟨"scenario_damage", 10, some 42, none, none, some 3, none, ["PGA", "PGV"],
   w7gsim, ⟨fun s => (s : Int)⟩, none, [0, 5], [[], []], fun _ => [], fun _ => []⟩

/-- C7 witness: the shape theorem applied to the concrete configuration;
the returned mapping indeed carries both IMTs. -/
theorem C7_calc_gmfs_shape_witness :
    w7p.imts.Nodup ∧
    (∀ imt m, (imt, m) ∈ calc_gmfs w7p [0, 5] →
      m.length = ([0, 5] : List Site).length ∧
      ∀ row ∈ m, row.length = w7p.number_of_ground_motion_fields.getD 1) ∧
    (calc_gmfs w7p [0, 5]).map Prod.fst = ["PGA", "PGV"] :=
  ⟨by decide, C7_calc_gmfs_shape w7p [0, 5] (by decide), by decide⟩

/-- Base configuration for the determinism counterexample and witness. -/
def w8p : OqParam :=
  ⟨"scenario_damage", 10, some 42, none, none, some 1, none, ["PGA"],
   w7gsim, ⟨fun s => (s : Int)⟩, none, [0, 5], [[], []], fun _ => [], fun _ => []⟩

/-- The base configuration with a different requested field count only. -/
def w8pn : OqParam := {w8p with number_of_ground_motion_fields := some 2}

/-- The base configuration with a different maximum_distance only. -/
def w8pd : OqParam := {w8p with maximum_distance := 4}

/-- C8 counterexample: two configurations agreeing on every stochastically
listed input (rupture, IMTs, model, truncation level, correlation model,
random_seed) but differing in the requested field count produce different
calc_gmfs matrices; and two configurations agreeing on all of those plus
the field count but differing in maximum_distance produce different
calc_gmfs_fast matrices, because the bulk call filters the sites by
distance to the rupture. -/
theorem C8_gmf_determinism_counterexample :
    (w8p.rupture = w8pn.rupture ∧ w8p.imts = w8pn.imts ∧ w8p.gsim = w8pn.gsim ∧
     w8p.truncation_level = w8pn.truncation_level ∧
     w8p.correl_model = w8pn.correl_model ∧ w8p.random_seed = w8pn.random_seed) ∧
    calc_gmfs w8p [0, 5] ≠ calc_gmfs w8pn [0, 5] ∧
    (w8p.rupture = w8pd.rupture ∧ w8p.imts = w8pd.imts ∧ w8p.gsim = w8pd.gsim ∧
     w8p.truncation_level = w8pd.truncation_level ∧
     w8p.correl_model = w8pd.correl_model ∧ w8p.random_seed = w8pd.random_seed ∧
     w8p.number_of_ground_motion_fields = w8pd.number_of_ground_motion_fields) ∧
    calc_gmfs_fast w8p [0, 5] ≠ calc_gmfs_fast w8pd [0, 5] :=
  ⟨⟨rfl, rfl, rfl, rfl, rfl, rfl⟩, by decide,
   ⟨rfl, rfl, rfl, rfl, rfl, rfl, rfl⟩, by decide⟩

/-- C8 (amended): calc_gmfs is a function of the rupture, the site
collection, the IMTs, the model, the truncation level, the correlation
model, the random_seed (default 42) and the requested field count alone —
all other configuration fields are irrelevant — and calc_gmfs_fast is
additionally a function of maximum_distance; the streaming per-realization
seeds are a deterministic function of random_seed alone, one independent
draw per realization. -/
theorem C8_gmf_determinism (p q : OqParam) (sitecol : List Site)
    (hrup : p.rupture = q.rupture) (himts : p.imts = q.imts)
    (hgsim : p.gsim = q.gsim) (htr : p.truncation_level = q.truncation_level)
    (hcor : p.correl_model = q.correl_model)
    (hseed : p.random_seed = q.random_seed)
    (hn : p.number_of_ground_motion_fields = q.number_of_ground_motion_fields) :
    calc_gmfs p sitecol = calc_gmfs q sitecol ∧
    (p.maximum_distance = q.maximum_distance →
      calc_gmfs_fast p sitecol = calc_gmfs_fast q sitecol) ∧
    drawSeeds (p.random_seed.getD 42) (p.number_of_ground_motion_fields.getD 1)
      = drawSeeds (q.random_seed.getD 42)
          (q.number_of_ground_motion_fields.getD 1) ∧
    (drawSeeds (p.random_seed.getD 42)
      (p.number_of_ground_motion_fields.getD 1)).length
      = p.number_of_ground_motion_fields.getD 1 := by
  refine ⟨?_, fun hmd => ?_, ?_, drawSeeds_length _ _⟩
  · unfold calc_gmfs gmfItems GmfComputer.compute
    rw [hrup, himts, hgsim, htr, hcor, hseed, hn]
  · unfold calc_gmfs_fast ground_motion_fields
    rw [hrup, himts, hgsim, htr, hcor, hseed, hn, hmd]
  · rw [hseed, hn]

/-- The base configuration with only stochastically irrelevant fields
changed (calculation mode, master seed, asset correlation). -/
def w8q : OqParam := { w8p with
  calculation_mode := "scenario_risk"
  master_seed := some 9
  asset_correlation := some 1 }

/-- C8 witness: the amended determinism theorem applied to two concrete
configurations that differ in calculation mode, master seed and asset
correlation but in no stochastically relevant field. -/
theorem C8_gmf_determinism_witness :
    w8p.calculation_mode ≠ w8q.calculation_mode ∧
    (calc_gmfs w8p [0, 5] = calc_gmfs w8q [0, 5] ∧
     (w8p.maximum_distance = w8q.maximum_distance →
       calc_gmfs_fast w8p [0, 5] = calc_gmfs_fast w8q [0, 5]) ∧
     drawSeeds (w8p.random_seed.getD 42)
       (w8p.number_of_ground_motion_fields.getD 1)
       = drawSeeds (w8q.random_seed.getD 42)
           (w8q.number_of_ground_motion_fields.getD 1) ∧
     (drawSeeds (w8p.random_seed.getD 42)
       (w8p.number_of_ground_motion_fields.getD 1)).length
       = w8p.number_of_ground_motion_fields.getD 1) :=
  ⟨by decide, C8_gmf_determinism w8p w8q [0, 5] rfl rfl rfl rfl rfl rfl rfl⟩

/-- Modelled from the spec: scientific.make_epsilons (openquake.risklib,
not in src): from a zeros matrix of shape (assets, samples), a seed and a
correlation coefficient, build the epsilon matrix of the same shape,
deterministically from those arguments alone. -/
def make_epsilons (n m seed : Nat) (correlation : Int) : List (List Int) :=
  (List.range n).map (fun i => (List.range m).map
    (fun j => Int.ofNat (randDraw seed (i * m + j)) + correlation))

/-- Embedding of add_epsilons from openquake/commonlib/calc.py: group the
assets of the container by taxonomy (a defaultdict fed in traversal order),
build one epsilon matrix per taxonomy from that taxonomy's asset count, and
pair each asset of the taxonomy with one row of the matrix (modelling the
.epsilons attribute attached to each asset). -/
def add_epsilons (assets_by_site : List (List EAsset)) (num_samples seed : Nat)
    (correlation : Int) : List (String × List (EAsset × List Int)) :=
  (groupPairs (assets_by_site.flatten.map (fun a => (a.taxonomy, a)))).map
    (fun g => (g.1, g.2.zip (make_epsilons g.2.length num_samples seed correlation)))

/-- The taxonomy entry produced by add_epsilons, when present. -/
def lookupTax {X : Type} (l : List (String × X)) (t : String) : Option X :=
  (l.find? (fun g => decide (g.1 = t))).map Prod.snd

theorem make_epsilons_length (n m seed : Nat) (c : Int) :
    (make_epsilons n m seed c).length = n := by
  simp [make_epsilons]

theorem make_epsilons_row_length (n m seed : Nat) (c : Int) :
    ∀ row ∈ make_epsilons n m seed c, row.length = m := by
  intro row h
  simp only [make_epsilons, List.mem_map, List.mem_range] at h
  obtain ⟨i, _, h⟩ := h
  rw [← h]
  simp

theorem filterMap_guard_taxonomy (l : List EAsset) (t : String) :
    l.filterMap (fun a => if a.taxonomy = t then some a else none)
      = l.filter (fun a => decide (a.taxonomy = t)) := by
  induction l with
  | nil => rfl
  | cons a rest ih =>
      by_cases h : a.taxonomy = t <;>
        simp [List.filterMap_cons, List.filter_cons, h, ih]

theorem grp_content (l : List EAsset) (t : String) :
    (l.map (fun a => (a.taxonomy, a))).filterMap
      (fun ab => if ab.1 = t then some ab.2 else none)
      = l.filter (fun a => decide (a.taxonomy = t)) := by
  rw [List.filterMap_map]
  exact filterMap_guard_taxonomy l t

theorem taxkeys_eq (l : List EAsset) :
    (l.map (fun a => (a.taxonomy, a))).map Prod.fst
      = l.map (fun a => a.taxonomy) := by
  rw [List.map_map]
  rfl

theorem taxfilter_eq_nil_iff (l : List EAsset) (t : String) :
    l.filter (fun a => decide (a.taxonomy = t)) = [] ↔
      t ∉ l.map (fun a => a.taxonomy) := by
  rw [List.filter_eq_nil_iff]
  simp only [decide_eq_true_eq, List.mem_map, not_exists]
  tauto

theorem find?_self_of_mem {A : Type} [DecidableEq A] {ts : List A} {t : A}
    (h : t ∈ ts) : ts.find? (fun a => decide (a = t)) = some t := by
  induction ts with
  | nil => cases h
  | cons a rest ih =>
      by_cases ha : a = t
      · subst ha
        rw [List.find?_cons_of_pos _ (by simp)]
      · have h' : t ∈ rest := by
          rcases List.mem_cons.mp h with heq | hm
          · exact absurd heq.symm ha
          · exact hm
        rw [List.find?_cons_of_neg _ (by simp [ha]), ih h']

theorem find?_self_of_not_mem {A : Type} [DecidableEq A] {ts : List A} {t : A}
    (h : t ∉ ts) : ts.find? (fun a => decide (a = t)) = none := by
  rw [List.find?_eq_none]
  intro x hx
  simp only [decide_eq_true_eq]
  exact fun heq => h (heq ▸ hx)

theorem find?_map_fst_id {A X : Type} [DecidableEq A] (ts : List A)
    (f : A → A × X) (hf : ∀ a, (f a).1 = a) (t : A) :
    (ts.map f).find? (fun g => decide (g.1 = t))
      = (ts.find? (fun a => decide (a = t))).map f := by
  induction ts with
  | nil => rfl
  | cons a rest ih =>
      by_cases h : a = t
      · subst h
        rw [List.map_cons, List.find?_cons_of_pos _ (by simp [hf]),
          List.find?_cons_of_pos _ (by simp)]
        rfl
      · rw [List.map_cons, List.find?_cons_of_neg _ (by simp [hf, h]),
          List.find?_cons_of_neg _ (by simp [h]), ih]

/-- Full evaluation of the taxonomy entry of add_epsilons: present exactly
when the container holds an asset of the taxonomy, and then pairing the
taxonomy's assets, in traversal order, with the epsilon matrix built from
their count. -/
theorem lookupTax_add_epsilons (abs : List (List EAsset)) (n s : Nat) (c : Int)
    (t : String) :
    lookupTax (add_epsilons abs n s c) t =
      if abs.flatten.filter (fun a => decide (a.taxonomy = t)) = [] then none
      else some ((abs.flatten.filter (fun a => decide (a.taxonomy = t))).zip
        (make_epsilons (abs.flatten.filter
          (fun a => decide (a.taxonomy = t))).length n s c)) := by
  unfold lookupTax add_epsilons groupPairs
  rw [List.map_map, taxkeys_eq]
  rw [find?_map_fst_id _ _ (fun a => rfl) t]
  by_cases hf : abs.flatten.filter (fun a => decide (a.taxonomy = t)) = []
  · have hnot : t ∉ (abs.flatten.map (fun a => a.taxonomy)).dedup :=
      fun hx => (taxfilter_eq_nil_iff _ t).mp hf (List.mem_dedup.mp hx)
    rw [find?_self_of_not_mem hnot, if_pos hf]
    rfl
  · have hmem : t ∈ (abs.flatten.map (fun a => a.taxonomy)).dedup :=
      List.mem_dedup.mpr (by
        by_contra hnot
        exact hf ((taxfilter_eq_nil_iff _ t).mpr hnot))
    rw [find?_self_of_mem hmem, if_neg hf, Option.map_some', Option.map_some']
    have hgrp := grp_content abs.flatten t
    rw [show ((fun g : String × List EAsset =>
        (g.1, g.2.zip (make_epsilons g.2.length n s c))) ∘
        (fun a : String => (a, (abs.flatten.map
          (fun a => (a.taxonomy, a))).filterMap
            (fun ab => if ab.1 = a then some ab.2 else none)))) t
        = (t, ((abs.flatten.map (fun a => (a.taxonomy, a))).filterMap
            (fun ab => if ab.1 = t then some ab.2 else none)).zip
            (make_epsilons ((abs.flatten.map (fun a => (a.taxonomy, a))).filterMap
              (fun ab => if ab.1 = t then some ab.2 else none)).length n s c))
      from rfl]
    rw [hgrp]

/-- C9: each taxonomy entry of add_epsilons pairs exactly the assets of
that taxonomy of the container, in traversal order, with the rows of an
epsilon matrix built from that count (one row per asset, each row of
length num_samples); and the entry of a taxonomy depends only on the
assets of that taxonomy, not on the assets of any other taxonomy. -/
theorem C9_add_epsilons_shape (abs : List (List EAsset)) (n s : Nat) (c : Int) :
    (∀ t pairs, (t, pairs) ∈ add_epsilons abs n s c →
      pairs.map Prod.fst = abs.flatten.filter (fun a => decide (a.taxonomy = t)) ∧
      pairs.length
        = (abs.flatten.filter (fun a => decide (a.taxonomy = t))).length ∧
      pairs.map Prod.snd = make_epsilons
        (abs.flatten.filter (fun a => decide (a.taxonomy = t))).length n s c ∧
      (∀ pr ∈ pairs, pr.2.length = n)) ∧
    (∀ (abs2 : List (List EAsset)) (t : String),
      abs.flatten.filter (fun a => decide (a.taxonomy = t))
        = abs2.flatten.filter (fun a => decide (a.taxonomy = t)) →
      lookupTax (add_epsilons abs n s c) t
        = lookupTax (add_epsilons abs2 n s c) t) := by
  constructor
  · intro t pairs hmem
    unfold add_epsilons at hmem
    rw [List.mem_map] at hmem
    obtain ⟨g, hg, heq⟩ := hmem
    obtain ⟨a, assets⟩ := g
    have h1 : a = t := congrArg Prod.fst heq
    subst h1
    have hpairs : pairs = assets.zip (make_epsilons assets.length n s c) :=
      (congrArg Prod.snd heq).symm
    obtain ⟨_, hassets⟩ := mem_groupPairs hg
    rw [grp_content] at hassets
    have hlen : (make_epsilons assets.length n s c).length = assets.length :=
      make_epsilons_length _ _ _ _
    have hfst : pairs.map Prod.fst = assets := by
      rw [hpairs, List.map_fst_zip _ _ (le_of_eq hlen.symm)]
    refine ⟨by rw [hfst, ← hassets], ?_, ?_, ?_⟩
    · rw [← hassets, ← hfst, List.length_map]
    · have hsnd : pairs.map Prod.snd = make_epsilons assets.length n s c := by
        rw [hpairs, List.map_snd_zip _ _ (le_of_eq hlen)]
      rw [hsnd, ← hassets]
    · intro pr hpr
      have hsnd : pr.2 ∈ pairs.map Prod.snd := List.mem_map_of_mem _ hpr
      rw [hpairs, List.map_snd_zip _ _ (le_of_eq hlen)] at hsnd
      exact make_epsilons_row_length _ _ _ _ _ hsnd
  · intro abs2 t hsame
    rw [lookupTax_add_epsilons, lookupTax_add_epsilons, hsame]

/-- Concrete asset container for the add_epsilons witness: two RC assets
split across two sites and one WOOD asset. -/
def w9abs : List (List EAsset) := [[⟨"RC", 1⟩, ⟨"WOOD", 2⟩], [⟨"RC", 3⟩]]

/-- A second container with the same RC assets but different other
taxonomies, for the independence part of the witness. -/
def w9abs2 : List (List EAsset) := [[⟨"RC", 1⟩], [⟨"RC", 3⟩, ⟨"STEEL", 9⟩]]

/-- C9 witness: the add_epsilons characterization applied to the concrete
container, whose groups are WOOD and RC, and whose RC entry coincides with
the one of a container differing only in the other taxonomies. -/
theorem C9_add_epsilons_shape_witness :
    (add_epsilons w9abs 2 5 0).map Prod.fst = ["WOOD", "RC"] ∧
    w9abs.flatten.filter (fun a => decide (a.taxonomy = "RC"))
      = w9abs2.flatten.filter (fun a => decide (a.taxonomy = "RC")) ∧
    lookupTax (add_epsilons w9abs 2 5 0) "RC"
      = lookupTax (add_epsilons w9abs2 2 5 0) "RC" :=
  ⟨by decide, by decide,
   (C9_add_epsilons_shape w9abs 2 5 0).2 w9abs2 "RC" (by decide)⟩

/-- The pipeline stages of run_scenario, in the order the source logs and
performs them. -/
inductive Event where
  | readExposure
  | computedGMFs
  | preparedRiskInput
  | addedEpsilons
  | ranReduce
  deriving DecidableEq, Repr

/-- The result dictionary of run_scenario: taxonomy-keyed in damage mode,
(kind, loss type)-keyed in risk mode. -/
inductive ScenResult where
  | damage (d : Dict String)
  | risk (d : Dict (AggKind × String))
  deriving DecidableEq, Repr

/-- Embedding of run_scenario from openquake/commonlib/calc.py.  The first
component is the trace of pipeline stages completed before returning or
failing: read the exposure, compute the GMFs (calc_gmfs), assemble one
RiskInput per (imt, site) from the GMF rows, then dispatch on
calculation_mode — scenario_risk reads number_of_ground_motion_fields as a
direct attribute (an absent field raises AttributeError at that point) and
adds the epsilons, scenario_damage goes straight to the reduction, and any
other mode raises NotImplementedError.  The reduction runs through the
modelled apply_reduce with the whole risk-input list as one partition (the
partition count cannot change the result, by partition invariance). -/
def run_scenario (p : OqParam) : List Event × Except PyErr ScenResult :=
  let sitecol := p.sitecol
  let assets_by_site := p.assets_by_site
  let gmfs_by_imt := calc_gmfs p sitecol
  let risk_inputs := gmfs_by_imt.flatMap (fun im =>
    (sitecol.zip (assets_by_site.zip im.2)).map
      (fun z => RiskInput.mk im.1 z.1 z.2.2 z.2.1))
  let trace := [Event.readExposure, Event.computedGMFs, Event.preparedRiskInput]
  if p.calculation_mode = "scenario_risk" then
    match p.number_of_ground_motion_fields with
    | none => (trace, .error .attributeError)
    | some num_samples =>
        let seed := p.master_seed.getD 42
        let correlation := p.asset_correlation.getD 0
        let _eps := add_epsilons assets_by_site num_samples seed correlation
        match apply_reduce (fun part => calc_scenario part p.risk_model_scen)
            [risk_inputs] [] with
        | .ok d => (trace ++ [Event.addedEpsilons, Event.ranReduce], .ok (.risk d))
        | .error e => (trace ++ [Event.addedEpsilons], .error e)
  else if p.calculation_mode = "scenario_damage" then
    match apply_reduce (fun part => calc_damage part p.risk_model_damage)
        [risk_inputs] [] with
    | .ok d => (trace ++ [Event.ranReduce], .ok (.damage d))
    | .error e => (trace, .error e)
  else (trace, .error .notImplementedError)

/-- Concrete configuration with an unrecognized calculation mode. -/
def w2p : OqParam :=
  ⟨"unknown_mode", 10, some 42, none, none, some 1, none, ["PGA"], w7gsim,
   ⟨fun s => (s : Int)⟩, none, [0, 5], [[], []], fun _ => [], fun _ => []⟩

/-- C2 counterexample: with calculation_mode unknown_mode, run_scenario
raises NotImplementedError — not a ConfigurationError — and only after the
ground-motion fields were computed and the risk inputs assembled, as the
trace shows. -/
theorem C2_run_scenario_counterexample :
    run_scenario w2p = ([Event.readExposure, Event.computedGMFs,
      Event.preparedRiskInput], .error .notImplementedError) ∧
    Event.computedGMFs ∈ (run_scenario w2p).1 ∧
    (run_scenario w2p).2 ≠ .error .configurationError := by
  have h : run_scenario w2p = ([Event.readExposure, Event.computedGMFs,
      Event.preparedRiskInput], .error .notImplementedError) := by
    simp [run_scenario, w2p]
  refine ⟨h, ?_, ?_⟩
  · rw [h]
    decide
  · rw [h]
    simp

/-- C2 (amended): when calculation_mode is neither scenario_risk nor
scenario_damage, run_scenario raises NotImplementedError (the code has no
ConfigurationError), and it does so only after the simulation work — the
GMF computation and the risk-input assembly — has completed, as the
returned trace records. -/
theorem C2_run_scenario_unknown_mode (p : OqParam)
    (h1 : p.calculation_mode ≠ "scenario_risk")
    (h2 : p.calculation_mode ≠ "scenario_damage") :
    run_scenario p = ([Event.readExposure, Event.computedGMFs,
      Event.preparedRiskInput], .error .notImplementedError) := by
  simp [run_scenario, h1, h2]

/-- C2 witness: the amended theorem applied to the concrete unknown-mode
configuration. -/
theorem C2_run_scenario_unknown_mode_witness :
    w2p.calculation_mode ≠ "scenario_risk" ∧
    w2p.calculation_mode ≠ "scenario_damage" ∧
    run_scenario w2p = ([Event.readExposure, Event.computedGMFs,
      Event.preparedRiskInput], .error .notImplementedError) :=
  ⟨by decide, by decide, C2_run_scenario_unknown_mode w2p (by decide) (by decide)⟩

/-- C10: in scenario_risk mode with number_of_ground_motion_fields absent,
run_scenario fails with an AttributeError — not a ConfigurationError — and
only after the ground-motion fields were computed and the risk inputs
assembled, because line 203 reads the attribute directly; calc_gmfs itself
tolerates the absence, defaulting the realization count to 1. -/
theorem C10_missing_gmf_count (p : OqParam)
    (hmode : p.calculation_mode = "scenario_risk")
    (habs : p.number_of_ground_motion_fields = none) :
    run_scenario p = ([Event.readExposure, Event.computedGMFs,
      Event.preparedRiskInput], .error .attributeError) ∧
    (run_scenario p).2 ≠ .error .configurationError ∧
    calc_gmfs p p.sitecol
      = calc_gmfs { p with number_of_ground_motion_fields := some 1 } p.sitecol := by
  have hrun : run_scenario p = ([Event.readExposure, Event.computedGMFs,
      Event.preparedRiskInput], .error .attributeError) := by
    simp [run_scenario, hmode, habs]
  refine ⟨hrun, ?_, ?_⟩
  · rw [hrun]
    simp
  · simp [calc_gmfs, gmfItems, habs]

/-- Concrete scenario_risk configuration lacking the field count. -/
def w10p : OqParam :=
  ⟨"scenario_risk", 10, some 42, none, none, none, none, ["PGA"], w7gsim,
   ⟨fun s => (s : Int)⟩, none, [0, 5], [[], []], fun _ => [], fun _ => []⟩

/-- C10 witness: the theorem applied to the concrete configuration lacking
number_of_ground_motion_fields. -/
theorem C10_missing_gmf_count_witness :
    w10p.calculation_mode = "scenario_risk" ∧
    w10p.number_of_ground_motion_fields = none ∧
    (run_scenario w10p = ([Event.readExposure, Event.computedGMFs,
      Event.preparedRiskInput], .error .attributeError) ∧
     (run_scenario w10p).2 ≠ .error .configurationError ∧
     calc_gmfs w10p w10p.sitecol
       = calc_gmfs { w10p with number_of_ground_motion_fields := some 1 }
           w10p.sitecol) :=
  ⟨rfl, rfl, C10_missing_gmf_count w10p rfl rfl⟩

end OQ
